import Mathlib

/-!
Shallow embedding of `build_vsix.py` (the VSIX theme builder's section-blob
encoder).  Python strings are modelled as `List Char`, Python `bytes` as
`List Nat` with every element `< 256` by construction, and raising
`ValueError` as returning `Except Err`.  The embedded functions keep the
source's names: `encode_name`, `parse_value`, `guid_parts`,
`guid_str_to_bytes`, `build_section` (with the local `blob` of the source
factored out as `build_section_blob`).
-/

namespace BuildVsix

/-- Turn a Lean string literal into the `List Char` representation used for
Python strings throughout this development. -/
def strL (s : String) : List Char := s.data

/-- The ASCII whitespace characters stripped by Python's `str.strip()`
(space, tab, newline, carriage return, vertical tab, form feed; the extra
Unicode spaces Python also strips never occur in the inputs modelled
here). -/
def isPyWs (c : Char) : Bool :=
  c.toNat = 32 || c.toNat = 9 || c.toNat = 10 || c.toNat = 13 ||
    c.toNat = 11 || c.toNat = 12

/-- The characters stripped by Python's `str.strip("{}")`. -/
def isBrace (c : Char) : Bool := c.toNat = 123 || c.toNat = 125

/-- Python `str.strip` with an explicit set of characters: drop matching
characters from both ends. -/
def stripWith (p : Char → Bool) (l : List Char) : List Char :=
  ((l.dropWhile p).reverse.dropWhile p).reverse

/-- Python `str.split(sep)` for a one-character separator: every occurrence
of the separator starts a new (possibly empty) group, and the result is
never the empty list (`"".split("-") == [""]`). -/
def pySplit (sep : Char) : List Char → List (List Char)
  | [] => [[]]
  | c :: rest =>
    if c = sep then [] :: pySplit sep rest
    else
      match pySplit sep rest with
      | g :: gs => (c :: g) :: gs
      | [] => [[c]]

/-- Value of one hexadecimal digit (`0-9`, `a-f`, `A-F`), `none` otherwise. -/
def hexVal? (c : Char) : Option Nat :=
  let n := c.toNat
  if 48 ≤ n ∧ n ≤ 57 then some (n - 48)
  else if 65 ≤ n ∧ n ≤ 70 then some (n - 55)
  else if 97 ≤ n ∧ n ≤ 102 then some (n - 87)
  else none

/-- Whether a character is a hexadecimal digit (the regex class
`[0-9a-fA-F]` of the source). -/
def isHex (c : Char) : Bool := (hexVal? c).isSome

/-- Big-endian accumulation of hex digits into a number.  Used only on
strings the source has already regex-validated as pure hex, so the
`getD 0` default is never reached there. -/
def hexNat (l : List Char) : Nat :=
  l.foldl (fun acc c => 16 * acc + (hexVal? c).getD 0) 0

/-- Hex digits after the first one in Python's `int(s, 16)` grammar, with
`acc` the value so far: a single underscore is allowed between digits (an
underscore must be followed by a digit; a trailing underscore fails). -/
def hexCoreTail (acc : Nat) : List Char → Option Nat
  | [] => some acc
  | c :: rest =>
    if c = '_' then
      match rest with
      | [] => none
      | c2 :: rest2 => (hexVal? c2).bind fun d => hexCoreTail (16 * acc + d) rest2
    else (hexVal? c).bind fun d => hexCoreTail (16 * acc + d) rest

/-- Digits-with-underscores part of Python's `int(s, 16)` grammar: a hex
digit, then hex digits with single underscores allowed between digits. -/
def hexCore : List Char → Option Nat
  | [] => none
  | c :: rest => (hexVal? c).bind fun d => hexCoreTail d rest

/-- After a `0x` prefix in Python's `int(s, 16)` grammar one underscore may
precede the first digit. -/
def hexAfterPrefix : List Char → Option Nat
  | '_' :: rest => hexCore rest
  | l => hexCore l

/-- The optional sign of Python's `int(s, 16)` grammar: the sign factor
and the remaining characters. -/
def pySignSplit : List Char → Int × List Char
  | '+' :: r => (1, r)
  | '-' :: r => (-1, r)
  | t => (1, t)

/-- The unsigned part of Python's `int(s, 16)` grammar: an optional
`0x`/`0X` prefix, then hex digits with single underscores between them. -/
def pyHexBody : List Char → Option Nat
  | '0' :: 'x' :: r => hexAfterPrefix r
  | '0' :: 'X' :: r => hexAfterPrefix r
  | u => hexCore u

/-- Python `int(s, 16)`: surrounding whitespace, an optional sign, an
optional `0x`/`0X` prefix (which may be followed by one underscore), then
hex digits with single underscores between them; `none` models the
`ValueError` Python raises otherwise. -/
def pyIntHex (s : List Char) : Option Int :=
  let sc := pySignSplit (stripWith isPyWs s)
  (pyHexBody sc.2).map fun n => sc.1 * (n : Int)

/-- Python `v.to_bytes(n, "little")` for `v < 2 ^ (8 * n)`, the only regime
the program reaches (Python raises `OverflowError` above it, which the
theorems exclude by hypothesis): the `n` little-endian base-256 digits. -/
def to_bytes_le (v n : Nat) : List Nat :=
  match n with
  | 0 => []
  | m + 1 => v % 256 :: to_bytes_le (v / 256) m

/-- Little-endian value of a byte list (used to state what a length field
holds). -/
def leNat : List Nat → Nat
  | [] => 0
  | b :: r => b + 256 * leNat r

/-- Python `bytes.fromhex` on an even-length hex string: consecutive hex
pairs become bytes, in order, with no byte swapping. -/
def fromHexPairs : List Char → List Nat
  | a :: b :: rest => (16 * (hexVal? a).getD 0 + (hexVal? b).getD 0) :: fromHexPairs rest
  | _ => []

/-- The `ValueError`s the source can raise, keyed by which message it
formats (spec taxonomy in parentheses). -/
inductive Err : Type
  /-- "Entry name must be ASCII: ..." (`NonAsciiName`). -/
  | nonAsciiName (name : List Char)
  /-- "Generic flag+mask not allowed for 0x00/0x01: ..." (`ReservedFlagValue`). -/
  | reservedFlag (value : List Char)
  /-- "Color must be 6 or 8 hex digits: ..." (`InvalidColorFormat`, length arm). -/
  | invalidColorLen (value : List Char)
  /-- "Invalid color hex: ..." (`InvalidColorFormat`, hex-parse arm). -/
  | invalidColorHex (value : List Char)
  /-- "Invalid GUID: ..." (`InvalidGUID`). -/
  | invalidGUID (guid : List Char)
  /-- "Section '...' does not have a 'GUID' field!" (`MissingSectionGUID`). -/
  | missingSectionGUID
  /-- "Entry '...' must be a 2-element list [x, x]" (`MalformedEntry`). -/
  | malformedEntry (name : List Char)
  /-- A `TypeError`/`AttributeError` from handing a non-string where the
  source calls a `str` method (outside the spec's taxonomy). -/
  | typeError
  /-- `bytes()` with an integer outside `range(0, 256)` (reachable only
  through a negative sign accepted by `int(s, 16)`). -/
  | byteRange
deriving DecidableEq, Repr

/-- `encode_name`: the name must encode as ASCII (every code point below
128, each becoming one byte); the result is a 4-byte little-endian length
prefix followed by the raw bytes. -/
def encode_name (name : List Char) : Except Err (List Nat) :=
  if name.all (fun c => c.toNat < 128) then
    .ok (to_bytes_le name.length 4 ++ name.map Char.toNat)
  else .error (.nonAsciiName name)

/-- The regex `([0-9a-fA-F]{2})x([0-9a-fA-F]{8})` as a full match: two hex
digits, the literal character `x`, eight hex digits. -/
def isFlagMask : List Char → Bool
  | c1 :: c2 :: 'x' :: rest =>
    isHex c1 && isHex c2 && rest.length = 8 && rest.all isHex
  | _ => false

/-- The color arm of `parse_value` after the leading `#` is stripped: the
payload must be 6 or 8 characters; the 2-character R, G, B (and A) slices
are handed to Python's `int(·, 16)`, whose failure is the
invalid-color-hex error; `bytes()` rejects a negative slice value
(reachable via an accepted `-` sign). -/
def parse_color_payload (w : List Char) : Except Err (List Nat) :=
  if w.length = 6 ∨ w.length = 8 then
    match pyIntHex (w.take 2), pyIntHex ((w.drop 2).take 2),
          pyIntHex ((w.drop 4).take 2),
          (if w.length = 6 then some (255 : Int) else pyIntHex (w.drop 6)) with
    | some r, some g, some b, some a =>
      if 0 ≤ r ∧ 0 ≤ g ∧ 0 ≤ b ∧ 0 ≤ a then
        .ok [0x01, r.toNat, g.toNat, b.toNat, a.toNat]
      else .error .byteRange
    | _, _, _, _ => .error (.invalidColorHex w)
  else .error (.invalidColorLen w)

/-- The reassignment `value = value[1:] if value.startswith("#") else value`
followed by the payload checks. -/
def parse_color (v : List Char) : Except Err (List Nat) :=
  parse_color_payload (if v.head? = some '#' then v.drop 1 else v)

/-- `parse_value`: `None` becomes the single byte `0x00`; otherwise strip
whitespace, try the flag+mask pattern (rejecting reserved flags 0 and 1),
and fall back to the color interpretation (`parse_color`). -/
def parse_value (value : Option (List Char)) : Except Err (List Nat) :=
  match value with
  | none => .ok [0x00]
  | some s =>
    let v := stripWith isPyWs s
    if isFlagMask v then
      let flag := hexNat (v.take 2)
      let mask := hexNat (v.drop 3)
      if flag = 0x00 ∨ flag = 0x01 then .error (.reservedFlag v)
      else .ok (to_bytes_le flag 1 ++ to_bytes_le mask 4)
    else parse_color v

/-- Whether a list is exactly `n` hexadecimal digits (the regex
`[0-9a-fA-F]{n}` as a full match). -/
def isHexGroup (n : Nat) (l : List Char) : Bool :=
  l.length = n && l.all isHex

/-- The five validated groups returned by `guid_parts`. -/
structure GuidParts : Type where
  p0 : List Char
  p1 : List Char
  p2 : List Char
  p3 : List Char
  p4 : List Char
deriving DecidableEq, Repr

/-- `guid_parts`: strip whitespace, strip surrounding braces, split on `-`;
there must be exactly five groups of exactly 8, 4, 4, 4 and 12 hex digits,
otherwise the `InvalidGUID` error (carrying the original input) is
raised. -/
def guid_parts (guid : List Char) : Except Err GuidParts :=
  match pySplit '-' (stripWith isBrace (stripWith isPyWs guid)) with
  | [p0, p1, p2, p3, p4] =>
    if isHexGroup 8 p0 && isHexGroup 4 p1 && isHexGroup 4 p2 &&
        isHexGroup 4 p3 && isHexGroup 12 p4 then
      .ok ⟨p0, p1, p2, p3, p4⟩
    else .error (.invalidGUID guid)
  | _ => .error (.invalidGUID guid)

/-- `guid_str_to_bytes`: group 1 as 4 little-endian bytes, groups 2 and 3
as 2 little-endian bytes each, groups 4 and 5 decoded hex pair by hex pair
(`bytes.fromhex`, no byte swapping). -/
def guid_str_to_bytes (guid : List Char) : Except Err (List Nat) :=
  (guid_parts guid).map fun p =>
    to_bytes_le (hexNat p.p0) 4 ++ to_bytes_le (hexNat p.p1) 2 ++
      to_bytes_le (hexNat p.p2) 2 ++ fromHexPairs p.p3 ++ fromHexPairs p.p4

/-- The Python values a YAML section entry can hold: absent (`None`), a
string, or a list of such values. -/
inductive PyVal : Type
  | none
  | str (s : List Char)
  | list (xs : List PyVal)

/-- A section as `build_section` receives it: a `dict` mapping entry names
to values, modelled as an association list in insertion order with
pairwise-distinct keys (a Python `dict` cannot repeat a key). -/
abbrev Section : Type := List (List Char × PyVal)

/-- The reserved `GUID` key of a section mapping. -/
def guidKey : List Char := strL "GUID"

/-- Python `dict` lookup on the association-list model. -/
def lookupKey (k : List Char) : List (List Char × PyVal) → Option PyVal
  | [] => Option.none
  | (k', v) :: rest => if k' = k then some v else lookupKey k rest

/-- A value handed to a `str` method (`strip` in `guid_parts`): anything
but a string is an `AttributeError` in the source, modelled as
`Err.typeError`. -/
def asStr : PyVal → Except Err (List Char)
  | .str s => .ok s
  | _ => .error .typeError

/-- A value handed to `parse_value` (typed `Optional[str]`): `None` and
strings pass through; a list would hit `.strip()` inside `parse_value` and
raise, modelled as `Err.typeError`. -/
def asOptStr : PyVal → Except Err (Option (List Char))
  | .none => .ok Option.none
  | .str s => .ok (some s)
  | .list _ => .error .typeError

/-- The entry loop of `build_section`: each entry must be a 2-element list
(else `MalformedEntry` naming it), and contributes its encoded name
followed by the encodings of its first and second value, in insertion
order. -/
def encodeEntries : List (List Char × PyVal) → Except Err (List Nat)
  | [] => .ok []
  | (name, entry) :: rest =>
    match entry with
    | .list [v1, v2] => do
      let nb ← encode_name name
      let b1 ← parse_value (← asOptStr v1)
      let b2 ← parse_value (← asOptStr v2)
      let rb ← encodeEntries rest
      .ok (nb ++ b1 ++ b2 ++ rb)
    | _ => .error (.malformedEntry name)

/-- The local `blob` of `build_section`: a 4-byte zero placeholder, the
constants 11 and 1 as 4 little-endian bytes each, the 16 encoded section
GUID bytes, the entry count (the mapping minus its `GUID` key) as 4
little-endian bytes, the encoded entries, and finally the placeholder
patched with the measured total length. -/
def build_section_blob (sectionMap : Section) : Except Err (List Nat) := do
  match lookupKey guidKey sectionMap with
  | Option.none => .error .missingSectionGUID
  | some guidVal =>
    let sec := sectionMap.filter fun e => e.1 ≠ guidKey
    let gs ← asStr guidVal
    let gb ← guid_str_to_bytes gs
    let body ← encodeEntries sec
    let blob := to_bytes_le 0 4 ++ to_bytes_le 11 4 ++ to_bytes_le 1 4 ++
      gb ++ to_bytes_le sec.length 4 ++ body
    .ok (to_bytes_le blob.length 4 ++ blob.drop 4)

/-- Lowercase hex digit of a value below 16 (Python's `x` format code). -/
def hexChar (n : Nat) : Char :=
  if n < 10 then Char.ofNat (48 + n) else Char.ofNat (87 + n)

/-- Python `f"{b:02x}"` for a byte: exactly two lowercase hex digits. -/
def hex2 (b : Nat) : List Char := [hexChar (b / 16), hexChar (b % 16)]

/-- `build_section`: the blob rendered as the two-line `.pkgdef` fragment —
a bracketed registry-path header embedding the theme GUID in braces and the
section name, then a `"Data"=hex:` line with the blob bytes as
comma-separated two-digit lowercase hex. -/
def build_section (theme_guid : List Char) (section_name : List Char)
    (sectionMap : Section) : Except Err (List Char) := do
  let blob ← build_section_blob sectionMap
  .ok (strL "\n[$RootKey$\\Themes\\\x7b" ++ theme_guid ++ strL "\x7d\\" ++
    section_name ++ strL "]\n\"Data\"=hex:" ++
    List.intercalate (strL ",") (blob.map hex2))

/-! ### Basic lemmas about the byte and character helpers -/

theorem char_eq_of_toNat {a b : Char} (h : a.toNat = b.toNat) : a = b := by
  apply Char.eq_of_val_eq
  apply UInt32.eq_of_toBitVec_eq
  exact BitVec.eq_of_toNat_eq h

theorem toNat_charOfNat {n : Nat} (h : n < 55296) : (Char.ofNat n).toNat = n := by
  simp [Char.ofNat, Nat.isValidChar, h, Char.toNat, Char.ofNatAux,
    UInt32.toNat, UInt32.ofNat, BitVec.toNat_ofNat]

theorem length_to_bytes_le (v n : Nat) : (to_bytes_le v n).length = n := by
  induction n generalizing v with
  | zero => rfl
  | succ m ih => simp [to_bytes_le, ih]

theorem leNat_to_bytes_le (v n : Nat) :
    leNat (to_bytes_le v n) = v % 256 ^ n := by
  induction n generalizing v with
  | zero => simp [to_bytes_le, leNat, Nat.mod_one]
  | succ m ih =>
    simp only [to_bytes_le, leNat, ih]
    rw [pow_succ', Nat.mod_mul]

theorem leNat_to_bytes_le_of_lt {v : Nat} (n : Nat) (h : v < 256 ^ n) :
    leNat (to_bytes_le v n) = v := by
  rw [leNat_to_bytes_le, Nat.mod_eq_of_lt h]

theorem to_bytes_le_lt (v n : Nat) : ∀ b ∈ to_bytes_le v n, b < 256 := by
  induction n generalizing v with
  | zero => simp [to_bytes_le]
  | succ m ih =>
    intro b hb
    simp only [to_bytes_le, List.mem_cons] at hb
    rcases hb with hb | hb
    · omega
    · exact ih _ _ hb

theorem hexValD_le (c : Char) : (hexVal? c).getD 0 ≤ 15 := by
  simp only [hexVal?]
  split_ifs <;> simp <;> omega

theorem isHex_iff {c : Char} :
    isHex c = true ↔
      (48 ≤ c.toNat ∧ c.toNat ≤ 57) ∨ (65 ≤ c.toNat ∧ c.toNat ≤ 70) ∨
        (97 ≤ c.toNat ∧ c.toNat ≤ 102) := by
  simp only [isHex, hexVal?]
  split_ifs with h1 h2 h3 <;> simp_all

theorem isHex_not_special {c : Char} (h : isHex c = true) :
    isPyWs c = false ∧ isBrace c = false ∧ c ≠ '-' ∧ c ≠ '+' ∧ c ≠ '#' ∧
      c ≠ '_' ∧ c ≠ 'x' ∧ c ≠ 'X' := by
  rw [isHex_iff] at h
  refine ⟨?_, ?_, ?_, ?_, ?_, ?_, ?_, ?_⟩
  · simp only [isPyWs, Bool.or_eq_false_iff, decide_eq_false_iff_not]
    omega
  · simp only [isBrace, Bool.or_eq_false_iff, decide_eq_false_iff_not]
    omega
  all_goals (rintro rfl; revert h; decide)

theorem dropWhile_eq_self_of_all {p : Char → Bool} {l : List Char}
    (h : ∀ c ∈ l, p c = false) : l.dropWhile p = l := by
  cases l with
  | nil => rfl
  | cons a t => simp [List.dropWhile_cons, h a (by simp)]

theorem stripWith_eq_self_of_all {p : Char → Bool} {l : List Char}
    (h : ∀ c ∈ l, p c = false) : stripWith p l = l := by
  unfold stripWith
  rw [dropWhile_eq_self_of_all h, dropWhile_eq_self_of_all, List.reverse_reverse]
  intro c hc
  exact h c (by simpa using hc)

theorem stripWith_nil (p : Char → Bool) : stripWith p [] = [] := rfl

theorem stripWith_eq_nil_of_all {p : Char → Bool} {l : List Char}
    (h : ∀ c ∈ l, p c = true) : stripWith p l = [] := by
  unfold stripWith
  have h1 : l.dropWhile p = [] := by
    rw [List.dropWhile_eq_nil_iff]
    intro x hx; exact h x hx
  simp [h1]

theorem pySplit_no_sep {sep : Char} {l : List Char} (h : sep ∉ l) :
    pySplit sep l = [l] := by
  induction l with
  | nil => rfl
  | cons c rest ih =>
    have hc : c ≠ sep := fun hc => h (hc ▸ List.mem_cons_self c rest)
    have hr : sep ∉ rest := fun hr => h (List.mem_cons_of_mem c hr)
    simp [pySplit, hc, ih hr]

theorem pySplit_append {sep : Char} {a b : List Char} (h : sep ∉ a) :
    pySplit sep (a ++ sep :: b) = a :: pySplit sep b := by
  induction a with
  | nil => simp [pySplit]
  | cons c rest ih =>
    have hc : c ≠ sep := fun hc => h (hc ▸ List.mem_cons_self c rest)
    have hr : sep ∉ rest := fun hr => h (List.mem_cons_of_mem c hr)
    simp only [List.cons_append, pySplit, if_neg hc, List.append_eq]
    rw [ih hr]

theorem hexNat_cons (c : Char) (l : List Char) :
    hexNat (c :: l) =
      l.foldl (fun acc d => 16 * acc + (hexVal? d).getD 0) ((hexVal? c).getD 0) := by
  simp [hexNat]

theorem hexNat_lt {l : List Char} : hexNat l < 16 ^ l.length := by
  suffices h : ∀ (l : List Char) (acc : Nat),
      l.foldl (fun a d => 16 * a + (hexVal? d).getD 0) acc < 16 ^ l.length * (acc + 1) by
    have := h l 0
    simpa [hexNat] using this
  intro l
  induction l with
  | nil => simp
  | cons c rest ih =>
    intro acc
    simp only [List.foldl_cons, List.length_cons]
    calc rest.foldl (fun a d => 16 * a + (hexVal? d).getD 0)
          (16 * acc + (hexVal? c).getD 0)
        < 16 ^ rest.length * (16 * acc + (hexVal? c).getD 0 + 1) := ih _
      _ ≤ 16 ^ (rest.length + 1) * (acc + 1) := by
          have := hexValD_le c
          rw [pow_succ]
          nlinarith [pow_pos (show 0 < 16 by norm_num) rest.length]

/-! ### C5: entry-name encoding -/

/-- C5: a pure-ASCII name encodes as a 4-byte little-endian byte-length
prefix followed by the raw ASCII bytes with no terminator or padding (for
names below the 32-bit limit the prefix holds exactly the length); a name
with any non-ASCII character fails with the `NonAsciiName` error.
`encode("Background")` is `0x0A,0x00,0x00,0x00` plus the 10 ASCII bytes. -/
theorem encode_name_spec :
    (∀ name : List Char, name.all (fun c => c.toNat < 128) = true →
      encode_name name = .ok (to_bytes_le name.length 4 ++ name.map Char.toNat) ∧
      (name.length < 2 ^ 32 →
        leNat (to_bytes_le name.length 4) = name.length)) ∧
    (∀ name : List Char, name.all (fun c => c.toNat < 128) = false →
      encode_name name = .error (.nonAsciiName name)) ∧
    encode_name (strL "Background") =
      .ok ([0x0A, 0x00, 0x00, 0x00] ++ (strL "Background").map Char.toNat) := by
  refine ⟨?_, ?_, ?_⟩
  · intro name h
    refine ⟨by simp [encode_name, h], fun hlen => ?_⟩
    exact leNat_to_bytes_le_of_lt 4 (by norm_num; omega)
  · intro name h
    simp [encode_name, h]
  · rfl

/-- Witness for C5 at the name `"Ok"`. -/
theorem encode_name_spec_witness :
    (strL "Ok").all (fun c => c.toNat < 128) = true ∧
      encode_name (strL "Ok") =
        .ok (to_bytes_le (strL "Ok").length 4 ++ (strL "Ok").map Char.toNat) :=
  ⟨by decide, (encode_name_spec.1 (strL "Ok") (by decide)).1⟩

/-! ### C2: GUID byte encoding -/

/-- A GUID written as its five hyphen-separated groups. -/
def guidJoin (p0 p1 p2 p3 p4 : List Char) : List Char :=
  p0 ++ '-' :: (p1 ++ '-' :: (p2 ++ '-' :: (p3 ++ '-' :: p4)))

theorem mem_guidJoin {p0 p1 p2 p3 p4 : List Char} {c : Char}
    (hc : c ∈ guidJoin p0 p1 p2 p3 p4) :
    c = '-' ∨ c ∈ p0 ∨ c ∈ p1 ∨ c ∈ p2 ∨ c ∈ p3 ∨ c ∈ p4 := by
  simp only [guidJoin, List.mem_append, List.mem_cons] at hc
  tauto

theorem all_isHex_of_isHexGroup {n : Nat} {l : List Char}
    (h : isHexGroup n l) : ∀ c ∈ l, isHex c = true := by
  have := (Bool.and_eq_true _ _).mp h
  exact fun c hc => List.all_eq_true.mp this.2 c hc

theorem length_of_isHexGroup {n : Nat} {l : List Char}
    (h : isHexGroup n l) : l.length = n := by
  have := (Bool.and_eq_true _ _).mp h
  exact by simpa using this.1

theorem not_dash_of_all_isHex {l : List Char}
    (h : ∀ c ∈ l, isHex c = true) : '-' ∉ l := by
  intro hmem
  exact (isHex_not_special (h _ hmem)).2.2.1 rfl

theorem guid_parts_of_groups {p0 p1 p2 p3 p4 : List Char}
    (h0 : isHexGroup 8 p0 = true) (h1 : isHexGroup 4 p1 = true)
    (h2 : isHexGroup 4 p2 = true) (h3 : isHexGroup 4 p3 = true)
    (h4 : isHexGroup 12 p4 = true) :
    guid_parts (guidJoin p0 p1 p2 p3 p4) = .ok ⟨p0, p1, p2, p3, p4⟩ := by
  have hall : ∀ c ∈ guidJoin p0 p1 p2 p3 p4, isHex c = true ∨ c = '-' := by
    intro c hc
    rcases mem_guidJoin hc with h | h | h | h | h | h
    · exact Or.inr h
    · exact Or.inl (all_isHex_of_isHexGroup h0 c h)
    · exact Or.inl (all_isHex_of_isHexGroup h1 c h)
    · exact Or.inl (all_isHex_of_isHexGroup h2 c h)
    · exact Or.inl (all_isHex_of_isHexGroup h3 c h)
    · exact Or.inl (all_isHex_of_isHexGroup h4 c h)
  have hs1 : stripWith isPyWs (guidJoin p0 p1 p2 p3 p4) = guidJoin p0 p1 p2 p3 p4 := by
    apply stripWith_eq_self_of_all
    intro c hc
    rcases hall c hc with h | h
    · exact (isHex_not_special h).1
    · subst h; rfl
  have hs2 : stripWith isBrace (guidJoin p0 p1 p2 p3 p4) = guidJoin p0 p1 p2 p3 p4 := by
    apply stripWith_eq_self_of_all
    intro c hc
    rcases hall c hc with h | h
    · exact (isHex_not_special h).2.1
    · subst h; rfl
  have hsplit : pySplit '-' (guidJoin p0 p1 p2 p3 p4) = [p0, p1, p2, p3, p4] := by
    unfold guidJoin
    rw [pySplit_append (not_dash_of_all_isHex (all_isHex_of_isHexGroup h0)),
      pySplit_append (not_dash_of_all_isHex (all_isHex_of_isHexGroup h1)),
      pySplit_append (not_dash_of_all_isHex (all_isHex_of_isHexGroup h2)),
      pySplit_append (not_dash_of_all_isHex (all_isHex_of_isHexGroup h3)),
      pySplit_no_sep (not_dash_of_all_isHex (all_isHex_of_isHexGroup h4))]
  unfold guid_parts
  rw [hs1, hs2, hsplit]
  simp [h0, h1, h2, h3, h4]

/-- C2: for a valid GUID (five hyphen-separated hex groups of lengths 8,
4, 4, 4, 12), the 16-byte encoding is group 1 as 4 little-endian bytes,
groups 2 and 3 as 2 little-endian bytes each, and groups 4 and 5 decoded
hex pair by hex pair in order with no byte swapping; the little-endian
fields hold exactly the group values. -/
theorem guid_str_to_bytes_spec (p0 p1 p2 p3 p4 : List Char)
    (h0 : isHexGroup 8 p0 = true) (h1 : isHexGroup 4 p1 = true)
    (h2 : isHexGroup 4 p2 = true) (h3 : isHexGroup 4 p3 = true)
    (h4 : isHexGroup 12 p4 = true) :
    guid_str_to_bytes (guidJoin p0 p1 p2 p3 p4) =
      .ok (to_bytes_le (hexNat p0) 4 ++ to_bytes_le (hexNat p1) 2 ++
        to_bytes_le (hexNat p2) 2 ++ fromHexPairs p3 ++ fromHexPairs p4) ∧
    leNat (to_bytes_le (hexNat p0) 4) = hexNat p0 ∧
    leNat (to_bytes_le (hexNat p1) 2) = hexNat p1 ∧
    leNat (to_bytes_le (hexNat p2) 2) = hexNat p2 := by
  refine ⟨?_, ?_, ?_, ?_⟩
  · unfold guid_str_to_bytes
    rw [guid_parts_of_groups h0 h1 h2 h3 h4]
    rfl
  · apply leNat_to_bytes_le_of_lt
    have := hexNat_lt (l := p0)
    rw [length_of_isHexGroup h0] at this
    norm_num at this ⊢
    omega
  · apply leNat_to_bytes_le_of_lt
    have := hexNat_lt (l := p1)
    rw [length_of_isHexGroup h1] at this
    norm_num at this ⊢
    omega
  · apply leNat_to_bytes_le_of_lt
    have := hexNat_lt (l := p2)
    rw [length_of_isHexGroup h2] at this
    norm_num at this ⊢
    omega

/-- Witness for C2 at the GUID `12345678-9abc-def0-1122-334455667788`. -/
theorem guid_str_to_bytes_spec_witness :
    isHexGroup 8 (strL "12345678") = true ∧
      guid_str_to_bytes
          (guidJoin (strL "12345678") (strL "9abc") (strL "def0")
            (strL "1122") (strL "334455667788")) =
        .ok (to_bytes_le (hexNat (strL "12345678")) 4 ++
          to_bytes_le (hexNat (strL "9abc")) 2 ++
          to_bytes_le (hexNat (strL "def0")) 2 ++
          fromHexPairs (strL "1122") ++ fromHexPairs (strL "334455667788")) :=
  ⟨by decide,
    (guid_str_to_bytes_spec (strL "12345678") (strL "9abc") (strL "def0")
      (strL "1122") (strL "334455667788") (by decide) (by decide) (by decide)
      (by decide) (by decide)).1⟩

/-! ### C7: GUID parsing rejection -/

/-- C7: `guid_parts` fails with the `InvalidGUID` error whenever the
(whitespace- and brace-stripped) input does not split on `-` into exactly
five groups, or any of the five groups is not pure hexadecimal of the exact
length 8, 4, 4, 4 or 12. -/
theorem guid_parts_rejects :
    (∀ g : List Char,
      (pySplit '-' (stripWith isBrace (stripWith isPyWs g))).length ≠ 5 →
      guid_parts g = .error (.invalidGUID g)) ∧
    (∀ g p0 p1 p2 p3 p4 : List Char,
      pySplit '-' (stripWith isBrace (stripWith isPyWs g)) = [p0, p1, p2, p3, p4] →
      (isHexGroup 8 p0 = false ∨ isHexGroup 4 p1 = false ∨
        isHexGroup 4 p2 = false ∨ isHexGroup 4 p3 = false ∨
        isHexGroup 12 p4 = false) →
      guid_parts g = .error (.invalidGUID g)) := by
  constructor
  · intro g hlen
    unfold guid_parts
    split
    · next p0 p1 p2 p3 p4 heq =>
      exact absurd (by rw [heq]; rfl) hlen
    · rfl
  · intro g p0 p1 p2 p3 p4 heq hbad
    unfold guid_parts
    split
    · next q0 q1 q2 q3 q4 heq' =>
      rw [heq] at heq'
      obtain ⟨rfl, rfl, rfl, rfl, rfl⟩ : p0 = q0 ∧ p1 = q1 ∧ p2 = q2 ∧ p3 = q3 ∧ p4 = q4 := by
        simpa using heq'
      rw [if_neg]
      simp only [Bool.and_eq_true, not_and]
      intro h
      rcases hbad with h' | h' | h' | h' | h' <;> simp_all
    · next hne =>
      rfl

/-- Witness for C7 at the input `"not-a-guid"`. -/
theorem guid_parts_rejects_witness :
    (pySplit '-' (stripWith isBrace (stripWith isPyWs (strL "not-a-guid")))).length ≠ 5 ∧
      guid_parts (strL "not-a-guid") = .error (.invalidGUID (strL "not-a-guid")) :=
  ⟨by decide, guid_parts_rejects.1 (strL "not-a-guid") (by decide)⟩

/-! ### C10: the empty and whitespace-only value strings -/

/-- C10: an empty or whitespace-only string is not the Empty form: it
reaches the color arm, where the stripped payload has length 0 and the
invalid-color error is raised, so the encoding is never the single byte
`0x00`; only the absent value (`None`) encodes as `[0x00]`. -/
theorem parse_value_blank_spec :
    (∀ s : List Char, s.all isPyWs = true →
      parse_value (some s) = .error (.invalidColorLen []) ∧
        parse_value (some s) ≠ .ok [0x00]) ∧
    parse_value Option.none = .ok [0x00] := by
  constructor
  · intro s hs
    have hstrip : stripWith isPyWs s = [] :=
      stripWith_eq_nil_of_all (List.all_eq_true.mp hs)
    have : parse_value (some s) = .error (.invalidColorLen []) := by
      simp only [parse_value, hstrip]
      rfl
    exact ⟨this, by rw [this]; intro h; cases h⟩
  · rfl

/-- Witness for C10 at the one-space string. -/
theorem parse_value_blank_spec_witness :
    (strL " ").all isPyWs = true ∧
      parse_value (some (strL " ")) = .error (.invalidColorLen []) :=
  ⟨by decide, (parse_value_blank_spec.1 (strL " ") (by decide)).1⟩

/-! ### C3: the flag+mask value form -/

theorem isFlagMask_elim {v : List Char} (h : isFlagMask v = true) :
    ∃ c1 c2 rest, v = c1 :: c2 :: 'x' :: rest ∧ isHex c1 = true ∧
      isHex c2 = true ∧ rest.length = 8 ∧ rest.all isHex = true := by
  unfold isFlagMask at h
  split at h
  · next c1 c2 rest =>
    simp only [Bool.and_eq_true, decide_eq_true_eq] at h
    exact ⟨c1, c2, rest, rfl, h.1.1.1, h.1.1.2, h.1.2, h.2⟩
  · exact absurd h (by simp)

/-- C3: a value that, after stripping whitespace, matches the flag+mask
pattern (two hex digits, the literal `x`, eight hex digits) encodes as the
1-byte flag followed by the 4-byte little-endian mask, except that flags
0x00 and 0x01 fail with the reserved-flag error; the pattern is tested
before the color interpretation (`"ffxDEADBEEF"` is a flag+mask value, not
a color), and `encode("02x000000FF") = [0x02, 0xFF, 0x00, 0x00, 0x00]`. -/
theorem parse_value_flagmask_spec :
    (∀ s : List Char, isFlagMask (stripWith isPyWs s) = true →
      hexNat ((stripWith isPyWs s).take 2) < 256 ∧
      hexNat ((stripWith isPyWs s).drop 3) < 2 ^ 32 ∧
      leNat (to_bytes_le (hexNat ((stripWith isPyWs s).drop 3)) 4) =
        hexNat ((stripWith isPyWs s).drop 3) ∧
      parse_value (some s) =
        (if hexNat ((stripWith isPyWs s).take 2) = 0x00 ∨
            hexNat ((stripWith isPyWs s).take 2) = 0x01 then
          .error (.reservedFlag (stripWith isPyWs s))
        else
          .ok (hexNat ((stripWith isPyWs s).take 2) ::
            to_bytes_le (hexNat ((stripWith isPyWs s).drop 3)) 4))) ∧
    parse_value (some (strL "02x000000FF")) = .ok [0x02, 0xFF, 0x00, 0x00, 0x00] ∧
    parse_value (some (strL "ffxDEADBEEF")) = .ok [0xFF, 0xEF, 0xBE, 0xAD, 0xDE] := by
  refine ⟨?_, rfl, rfl⟩
  intro s h
  obtain ⟨c1, c2, rest, hv, hc1, hc2, hlen, hall⟩ := isFlagMask_elim h
  have htake : (stripWith isPyWs s).take 2 = [c1, c2] := by rw [hv]; rfl
  have hdrop : (stripWith isPyWs s).drop 3 = rest := by rw [hv]; rfl
  have hflag : hexNat ((stripWith isPyWs s).take 2) < 256 := by
    have := hexNat_lt (l := (stripWith isPyWs s).take 2)
    rw [htake] at this ⊢
    simpa using this
  have hmask : hexNat ((stripWith isPyWs s).drop 3) < 2 ^ 32 := by
    have := hexNat_lt (l := (stripWith isPyWs s).drop 3)
    rw [hdrop] at this ⊢
    rw [hlen] at this
    norm_num at this ⊢
    omega
  refine ⟨hflag, hmask, leNat_to_bytes_le_of_lt 4 (by norm_num at hmask ⊢; omega), ?_⟩
  simp only [parse_value, h, if_true]
  split
  · rfl
  · have : to_bytes_le (hexNat ((stripWith isPyWs s).take 2)) 1 =
        [hexNat ((stripWith isPyWs s).take 2)] := by
      simp [to_bytes_le, Nat.mod_eq_of_lt hflag]
    rw [this]
    rfl

/-- Witness for C3 at the value `"a2x00000001"`. -/
theorem parse_value_flagmask_spec_witness :
    isFlagMask (stripWith isPyWs (strL "a2x00000001")) = true ∧
      parse_value (some (strL "a2x00000001")) =
        (if hexNat ((stripWith isPyWs (strL "a2x00000001")).take 2) = 0x00 ∨
            hexNat ((stripWith isPyWs (strL "a2x00000001")).take 2) = 0x01 then
          .error (.reservedFlag (stripWith isPyWs (strL "a2x00000001")))
        else
          .ok (hexNat ((stripWith isPyWs (strL "a2x00000001")).take 2) ::
            to_bytes_le (hexNat ((stripWith isPyWs (strL "a2x00000001")).drop 3)) 4)) :=
  ⟨by decide, (parse_value_flagmask_spec.1 (strL "a2x00000001") (by decide)).2.2.2⟩

/-! ### C4: the color value form -/

theorem pySignSplit_no_sign {a : List Char} (hp : ¬a.head? = some '+')
    (hm : ¬a.head? = some '-') : pySignSplit a = (1, a) := by
  unfold pySignSplit
  split
  · simp at hp
  · simp at hm
  · rfl

theorem pyHexBody_no_prefix {a : List Char}
    (h : ∀ r : List Char, a ≠ '0' :: 'x' :: r ∧ a ≠ '0' :: 'X' :: r) :
    pyHexBody a = hexCore a := by
  unfold pyHexBody
  split
  · next r => exact absurd rfl (h r).1
  · next r => exact absurd rfl (h r).2
  · rfl

theorem hexCoreTail_single {acc : Nat} {b : Char} (hb : b ≠ '_') :
    hexCoreTail acc [b] = (hexVal? b).map fun d => 16 * acc + d := by
  rw [hexCoreTail.eq_def]
  simp only [if_neg hb]
  cases hv : hexVal? b <;> simp [hv, hexCoreTail.eq_def]

theorem stripWith_pair_hex {a b : Char} (ha : isHex a = true) (hb : isHex b = true) :
    stripWith isPyWs [a, b] = [a, b] := by
  apply stripWith_eq_self_of_all
  intro c hc
  simp only [List.mem_cons, List.not_mem_nil, or_false] at hc
  rcases hc with rfl | rfl
  · exact (isHex_not_special ha).1
  · exact (isHex_not_special hb).1

theorem pyIntHex_pair {a b : Char} (ha : isHex a = true) (hb : isHex b = true) :
    pyIntHex [a, b] =
      some ((16 * (hexVal? a).getD 0 + (hexVal? b).getD 0 : Nat) : Int) := by
  obtain ⟨_, _, _, haplus, _, _, _, _⟩ := isHex_not_special ha
  obtain ⟨_, _, hbdash, _, _, hbund, hbx, hbX⟩ := isHex_not_special hb
  obtain ⟨_, _, hadash, _, _, _, _, _⟩ := isHex_not_special ha
  obtain ⟨va, hva⟩ := Option.isSome_iff_exists.mp ha
  obtain ⟨vb, hvb⟩ := Option.isSome_iff_exists.mp hb
  unfold pyIntHex
  rw [stripWith_pair_hex ha hb,
    pySignSplit_no_sign (by simp; rintro rfl; exact haplus rfl)
      (by simp; rintro rfl; exact hadash rfl)]
  have hnp : pyHexBody [a, b] = hexCore [a, b] := pyHexBody_no_prefix (by
    intro r
    constructor
    · intro hh
      injection hh with h1 h2
      injection h2 with h2 _
      exact hbx h2
    · intro hh
      injection hh with h1 h2
      injection h2 with h2 _
      exact hbX h2)
  have hcore : hexCore [a, b] = some (16 * va + vb) := by
    simp [hexCore, hva, hexCoreTail_single hbund, hvb]
  simp [hnp, hcore, hva, hvb]

theorem hexNat_pair (a b : Char) :
    hexNat [a, b] = 16 * (hexVal? a).getD 0 + (hexVal? b).getD 0 := by
  simp [hexNat]

theorem parse_value_not_flagmask {s : List Char}
    (hm : isFlagMask (stripWith isPyWs s) = false) :
    parse_value (some s) = parse_color (stripWith isPyWs s) := by
  simp [parse_value, hm]

theorem parse_color_hex6 {v w : List Char}
    (hv : (if v.head? = some '#' then v.drop 1 else v) = w)
    (h6 : w.length = 6) (hhex : ∀ c ∈ w, isHex c = true) :
    parse_color v =
      .ok [0x01, hexNat (w.take 2), hexNat ((w.drop 2).take 2),
        hexNat ((w.drop 4).take 2), 0xFF] := by
  rcases w with _ | ⟨a0, _ | ⟨a1, _ | ⟨a2, _ | ⟨a3, _ | ⟨a4, _ | ⟨a5, rest⟩⟩⟩⟩⟩⟩ <;>
    simp only [List.length_cons, List.length_nil] at h6 <;> try omega
  obtain rfl : rest = [] := List.length_eq_zero.mp (by omega)
  have ha0 : isHex a0 = true := hhex a0 (by simp)
  have ha1 : isHex a1 = true := hhex a1 (by simp)
  have ha2 : isHex a2 = true := hhex a2 (by simp)
  have ha3 : isHex a3 = true := hhex a3 (by simp)
  have ha4 : isHex a4 = true := hhex a4 (by simp)
  have ha5 : isHex a5 = true := hhex a5 (by simp)
  simp only [parse_color, hv]
  unfold parse_color_payload
  rw [if_pos (by simp)]
  have ht1 : ([a0, a1, a2, a3, a4, a5] : List Char).take 2 = [a0, a1] := rfl
  have ht2 : (([a0, a1, a2, a3, a4, a5] : List Char).drop 2).take 2 = [a2, a3] := rfl
  have ht3 : (([a0, a1, a2, a3, a4, a5] : List Char).drop 4).take 2 = [a4, a5] := rfl
  rw [ht1, ht2, ht3, pyIntHex_pair ha0 ha1, pyIntHex_pair ha2 ha3,
    pyIntHex_pair ha4 ha5]
  have halpha : (if ([a0, a1, a2, a3, a4, a5] : List Char).length = 6 then
      some (255 : Int) else pyIntHex (List.drop 6 [a0, a1, a2, a3, a4, a5])) =
      some (255 : Int) := by simp
  rw [halpha]
  have h0le : ∀ x y : Nat, (0 : Int) ≤ 16 * (x : Int) + (y : Int) :=
    fun x y => by positivity
  have hcast : ∀ x y : Nat, (16 * (x : Int) + (y : Int)).toNat = 16 * x + y :=
    fun x y => by omega
  simp [h0le, hcast, hexNat_pair]

theorem parse_color_hex8 {v w : List Char}
    (hv : (if v.head? = some '#' then v.drop 1 else v) = w)
    (h8 : w.length = 8) (hhex : ∀ c ∈ w, isHex c = true) :
    parse_color v =
      .ok [0x01, hexNat (w.take 2), hexNat ((w.drop 2).take 2),
        hexNat ((w.drop 4).take 2), hexNat (w.drop 6)] := by
  rcases w with _ | ⟨a0, _ | ⟨a1, _ | ⟨a2, _ | ⟨a3, _ | ⟨a4, _ | ⟨a5, _ | ⟨a6, _ | ⟨a7,
    rest⟩⟩⟩⟩⟩⟩⟩⟩ <;>
    simp only [List.length_cons, List.length_nil] at h8 <;> try omega
  obtain rfl : rest = [] := List.length_eq_zero.mp (by omega)
  have ha0 : isHex a0 = true := hhex a0 (by simp)
  have ha1 : isHex a1 = true := hhex a1 (by simp)
  have ha2 : isHex a2 = true := hhex a2 (by simp)
  have ha3 : isHex a3 = true := hhex a3 (by simp)
  have ha4 : isHex a4 = true := hhex a4 (by simp)
  have ha5 : isHex a5 = true := hhex a5 (by simp)
  have ha6 : isHex a6 = true := hhex a6 (by simp)
  have ha7 : isHex a7 = true := hhex a7 (by simp)
  simp only [parse_color, hv]
  unfold parse_color_payload
  rw [if_pos (by simp)]
  have ht1 : ([a0, a1, a2, a3, a4, a5, a6, a7] : List Char).take 2 = [a0, a1] := rfl
  have ht2 : (([a0, a1, a2, a3, a4, a5, a6, a7] : List Char).drop 2).take 2 = [a2, a3] := rfl
  have ht3 : (([a0, a1, a2, a3, a4, a5, a6, a7] : List Char).drop 4).take 2 = [a4, a5] := rfl
  have ht4 : ([a0, a1, a2, a3, a4, a5, a6, a7] : List Char).drop 6 = [a6, a7] := rfl
  have halpha : (if ([a0, a1, a2, a3, a4, a5, a6, a7] : List Char).length = 6 then
      some (255 : Int) else pyIntHex (([a0, a1, a2, a3, a4, a5, a6, a7] : List Char).drop 6)) =
      some ((16 * (hexVal? a6).getD 0 + (hexVal? a7).getD 0 : Nat) : Int) := by
    rw [if_neg (by simp), ht4, pyIntHex_pair ha6 ha7]
  rw [ht1, ht2, ht3, pyIntHex_pair ha0 ha1, pyIntHex_pair ha2 ha3,
    pyIntHex_pair ha4 ha5, halpha]
  have h0le : ∀ x y : Nat, (0 : Int) ≤ 16 * (x : Int) + (y : Int) :=
    fun x y => by positivity
  have hcast : ∀ x y : Nat, (16 * (x : Int) + (y : Int)).toNat = 16 * x + y :=
    fun x y => by omega
  simp [h0le, hcast, hexNat_pair, ht4]

theorem parse_color_bad_length {v w : List Char}
    (hv : (if v.head? = some '#' then v.drop 1 else v) = w)
    (h6 : w.length ≠ 6) (h8 : w.length ≠ 8) :
    parse_color v = .error (.invalidColorLen w) := by
  simp only [parse_color, hv]
  unfold parse_color_payload
  rw [if_neg (by tauto)]

theorem parse_color_bad_hex {v w : List Char}
    (hv : (if v.head? = some '#' then v.drop 1 else v) = w)
    (hlen : w.length = 6 ∨ w.length = 8)
    (hbad : pyIntHex (w.take 2) = Option.none ∨
      pyIntHex ((w.drop 2).take 2) = Option.none ∨
      pyIntHex ((w.drop 4).take 2) = Option.none ∨
      (w.length = 8 ∧ pyIntHex (w.drop 6) = Option.none)) :
    parse_color v = .error (.invalidColorHex w) := by
  simp only [parse_color, hv]
  unfold parse_color_payload
  rw [if_pos hlen]
  rcases hbad with h | h | h | ⟨h8, h⟩
  · rw [h]
  · rw [h]
    cases pyIntHex (w.take 2) <;> rfl
  · rw [h]
    cases pyIntHex (w.take 2) <;> cases pyIntHex ((w.drop 2).take 2) <;> rfl
  · rw [if_neg (by omega), h]
    cases pyIntHex (w.take 2) <;> cases pyIntHex ((w.drop 2).take 2) <;>
      cases pyIntHex ((w.drop 4).take 2) <;> rfl

/-- C4 counterexample: the stripped value `"+10203"` is 6 characters long
and contains the non-hexadecimal character `+`, yet `parse_value` accepts
it as a color — Python's `int(·, 16)` tolerates a sign inside a 2-character
slice — instead of failing with the invalid-color error as the claim
requires. -/
theorem parse_value_color_counterexample :
    isHex '+' = false ∧ '+' ∈ strL "+10203" ∧
    stripWith isPyWs (strL "+10203") = strL "+10203" ∧
    isFlagMask (strL "+10203") = false ∧
    parse_value (some (strL "+10203")) = .ok [0x01, 0x01, 0x02, 0x03, 0xFF] ∧
    ∀ e : Err, parse_value (some (strL "+10203")) ≠ .error e := by
  refine ⟨rfl, by decide, rfl, rfl, rfl, ?_⟩
  intro e h
  have heval : parse_value (some (strL "+10203")) =
      .ok [0x01, 0x01, 0x02, 0x03, 0xFF] := rfl
  rw [heval] at h
  exact Except.noConfusion h

theorem parse_color_tolerated {v w : List Char} {r g b a : Int}
    (hv : (if v.head? = some '#' then v.drop 1 else v) = w)
    (hlen : w.length = 6 ∨ w.length = 8)
    (hr : pyIntHex (w.take 2) = some r)
    (hg : pyIntHex ((w.drop 2).take 2) = some g)
    (hb : pyIntHex ((w.drop 4).take 2) = some b)
    (ha : (if w.length = 6 then some (255 : Int) else pyIntHex (w.drop 6)) =
      some a) :
    parse_color v =
      (if 0 ≤ r ∧ 0 ≤ g ∧ 0 ≤ b ∧ 0 ≤ a then
        .ok [0x01, r.toNat, g.toNat, b.toNat, a.toNat]
      else .error .byteRange) := by
  simp only [parse_color, hv]
  unfold parse_color_payload
  rw [if_pos hlen, hr, hg, hb, ha]

/-- C4 (amended): `None` encodes as the single byte `0x00`; a non-flag
value is treated as a color: after stripping an optional leading `#`, a
6-hex-digit payload `RRGGBB` encodes as `[0x01, R, G, B, 0xFF]` and an
8-hex-digit payload `RRGGBBAA` as `[0x01, R, G, B, A]`; a payload whose
length is not 6 or 8 fails with the invalid-color error (e.g.
`encode("1234")`), and so does a payload with a 2-character slice that
Python's `int(·, 16)` rejects.  A slice that parser tolerates is not
rejected as a color: when every parsed slice value is nonnegative (a
leading `+` or inner whitespace, as in `"+10203"`) the value is accepted
and encoded from the parsed values, and when a tolerated slice is negative
(a leading `-`, as in `"-10203"`) the encoding fails with the uncaught
`bytes()` range error, not the invalid-color error. -/
theorem parse_value_color_spec :
    parse_value Option.none = .ok [0x00] ∧
    (∀ s v w : List Char, v = stripWith isPyWs s →
      (if v.head? = some '#' then v.drop 1 else v) = w →
      isFlagMask v = false →
      ((w.length = 6 → (∀ c ∈ w, isHex c = true) →
        parse_value (some s) =
          .ok [0x01, hexNat (w.take 2), hexNat ((w.drop 2).take 2),
            hexNat ((w.drop 4).take 2), 0xFF]) ∧
       (w.length = 8 → (∀ c ∈ w, isHex c = true) →
        parse_value (some s) =
          .ok [0x01, hexNat (w.take 2), hexNat ((w.drop 2).take 2),
            hexNat ((w.drop 4).take 2), hexNat (w.drop 6)]) ∧
       (w.length ≠ 6 → w.length ≠ 8 →
        parse_value (some s) = .error (.invalidColorLen w)) ∧
       ((w.length = 6 ∨ w.length = 8) →
        (pyIntHex (w.take 2) = Option.none ∨
         pyIntHex ((w.drop 2).take 2) = Option.none ∨
         pyIntHex ((w.drop 4).take 2) = Option.none ∨
         (w.length = 8 ∧ pyIntHex (w.drop 6) = Option.none)) →
        parse_value (some s) = .error (.invalidColorHex w)) ∧
       ((w.length = 6 ∨ w.length = 8) →
        ∀ r g b a : Int,
          pyIntHex (w.take 2) = some r →
          pyIntHex ((w.drop 2).take 2) = some g →
          pyIntHex ((w.drop 4).take 2) = some b →
          (if w.length = 6 then some (255 : Int) else pyIntHex (w.drop 6)) =
            some a →
          parse_value (some s) =
            (if 0 ≤ r ∧ 0 ≤ g ∧ 0 ≤ b ∧ 0 ≤ a then
              .ok [0x01, r.toNat, g.toNat, b.toNat, a.toNat]
            else .error .byteRange)))) ∧
    parse_value (some (strL "1234")) = .error (.invalidColorLen (strL "1234")) ∧
    parse_value (some (strL "-10203")) = .error .byteRange := by
  refine ⟨rfl, ?_, rfl, rfl⟩
  rintro s v w rfl hv hm
  rw [parse_value_not_flagmask hm]
  exact ⟨fun h6 hhex => parse_color_hex6 hv h6 hhex,
    fun h8 hhex => parse_color_hex8 hv h8 hhex,
    fun h6 h8 => parse_color_bad_length hv h6 h8,
    fun hlen hbad => parse_color_bad_hex hv hlen hbad,
    fun hlen r g b a hr hg hb ha =>
      parse_color_tolerated hv hlen hr hg hb ha⟩

/-- Witness for C4 at the value `"#FF8000"`. -/
theorem parse_value_color_spec_witness :
    parse_value (some (strL "#FF8000")) = .ok [0x01, 0xFF, 0x80, 0x00, 0xFF] := by
  have h := (parse_value_color_spec.2.1 (strL "#FF8000")
    (stripWith isPyWs (strL "#FF8000")) (strL "FF8000") rfl (by decide) rfl).1
    (by decide) (by decide)
  rw [h]
  rfl

/-! ### C1: blob layout -/

theorem drop4_to_bytes (v : Nat) (r : List Nat) :
    (to_bytes_le v 4 ++ r).drop 4 = r := by
  have h := List.drop_left (to_bytes_le v 4) r
  rwa [length_to_bytes_le] at h

theorem take4_to_bytes (v : Nat) (r : List Nat) :
    (to_bytes_le v 4 ++ r).take 4 = to_bytes_le v 4 := by
  have h := List.take_left (to_bytes_le v 4) r
  rwa [length_to_bytes_le] at h

theorem except_bind_ok {α β : Type} {x : Except Err α} {f : α → Except Err β}
    {b : β} (h : (x >>= f) = .ok b) : ∃ a, x = .ok a ∧ f a = .ok b := by
  cases x with
  | error e => simp [Bind.bind, Except.bind] at h
  | ok a => exact ⟨a, rfl, by simpa [Bind.bind, Except.bind] using h⟩

theorem guid_parts_ok_groups {g : List Char} {p : GuidParts}
    (h : guid_parts g = .ok p) :
    isHexGroup 8 p.p0 = true ∧ isHexGroup 4 p.p1 = true ∧
      isHexGroup 4 p.p2 = true ∧ isHexGroup 4 p.p3 = true ∧
      isHexGroup 12 p.p4 = true := by
  unfold guid_parts at h
  split at h
  · next p0 p1 p2 p3 p4 heq =>
    split_ifs at h with hc
    · injection h with h'
      subst h'
      simp only [Bool.and_eq_true] at hc
      exact ⟨hc.1.1.1.1, hc.1.1.1.2, hc.1.1.2, hc.1.2, hc.2⟩
  · cases h

theorem fromHexPairs_length (l : List Char) :
    (fromHexPairs l).length = l.length / 2 := by
  induction l using fromHexPairs.induct with
  | case1 a b rest ih =>
    simp only [fromHexPairs, List.length_cons, ih]
    omega
  | case2 l h =>
    cases l with
    | nil => simp [fromHexPairs]
    | cons a t =>
      cases t with
      | nil =>
        simp only [fromHexPairs, List.length_cons, List.length_nil]
      | cons b r => exact absurd rfl (h a b r)

theorem guid_str_to_bytes_length {g : List Char} {gb : List Nat}
    (h : guid_str_to_bytes g = .ok gb) : gb.length = 16 := by
  unfold guid_str_to_bytes at h
  cases hp : guid_parts g with
  | error e => rw [hp] at h; cases h
  | ok p =>
    rw [hp] at h
    injection h with h'
    obtain ⟨h0, h1, h2, h3, h4⟩ := guid_parts_ok_groups hp
    subst h'
    simp [length_to_bytes_le, fromHexPairs_length,
      length_of_isHexGroup h3, length_of_isHexGroup h4]

/-- C1: when every entry validates, the blob is the 4-byte little-endian
total length (patched last, measured over the assembled blob, and equal to
the blob's own length when it is below `2 ^ 32`), the constants 11 and 1 as
4 little-endian bytes each, the 16 encoded section-GUID bytes, the 4-byte
little-endian count of the entries excluding the reserved `GUID` key, and
each remaining entry's encoded name followed by its encoded primary and
secondary values in the insertion order of the mapping. -/
theorem build_section_blob_layout :
    (∀ (sec : Section) (blob : List Nat), build_section_blob sec = .ok blob →
      ∃ gv gs gb body,
        lookupKey guidKey sec = some gv ∧ asStr gv = .ok gs ∧
        guid_str_to_bytes gs = .ok gb ∧ gb.length = 16 ∧
        encodeEntries (sec.filter fun e => e.1 ≠ guidKey) = .ok body ∧
        blob = to_bytes_le blob.length 4 ++ to_bytes_le 11 4 ++ to_bytes_le 1 4 ++
          gb ++ to_bytes_le (sec.filter fun e => e.1 ≠ guidKey).length 4 ++ body ∧
        blob.length = 32 + body.length ∧
        (blob.length < 2 ^ 32 → leNat (blob.take 4) = blob.length)) ∧
    (∀ (nm : List Char) (v1 v2 : PyVal) (rest : List (List Char × PyVal))
        (b : List Nat),
      encodeEntries ((nm, PyVal.list [v1, v2]) :: rest) = .ok b →
      ∃ nb s1 s2 b1 b2 rb,
        encode_name nm = .ok nb ∧
        asOptStr v1 = .ok s1 ∧ parse_value s1 = .ok b1 ∧
        asOptStr v2 = .ok s2 ∧ parse_value s2 = .ok b2 ∧
        encodeEntries rest = .ok rb ∧
        b = nb ++ b1 ++ b2 ++ rb) := by
  constructor
  · intro sec blob h
    unfold build_section_blob at h
    split at h
    · cases h
    · next gv hl =>
      obtain ⟨gs, hgs, h⟩ := except_bind_ok h
      obtain ⟨gb, hgb, h⟩ := except_bind_ok h
      obtain ⟨body, hbody, h⟩ := except_bind_ok h
      injection h with h'
      have hgblen : gb.length = 16 := guid_str_to_bytes_length hgb
      have hlen32 :
          (to_bytes_le 0 4 ++ to_bytes_le 11 4 ++ to_bytes_le 1 4 ++ gb ++
            to_bytes_le (sec.filter fun e => e.1 ≠ guidKey).length 4 ++ body).length =
          32 + body.length := by
        simp only [List.length_append, length_to_bytes_le, hgblen]
      set B := to_bytes_le 0 4 ++ to_bytes_le 11 4 ++ to_bytes_le 1 4 ++ gb ++
        to_bytes_le (sec.filter fun e => e.1 ≠ guidKey).length 4 ++ body with hB
      have hBdrop : B.drop 4 = to_bytes_le 11 4 ++ to_bytes_le 1 4 ++ gb ++
          to_bytes_le (sec.filter fun e => e.1 ≠ guidKey).length 4 ++ body := by
        rw [hB]
        simp only [List.append_assoc]
        rw [drop4_to_bytes]
      have hBlen : B.length = 32 + body.length := hlen32
      have hglen : blob.length = B.length := by
        rw [← h']
        simp only [List.length_append, List.length_drop, length_to_bytes_le]
        omega
      refine ⟨gv, gs, gb, body, hl, hgs, hgb, hgblen, hbody, ?_, ?_, ?_⟩
      · rw [hglen, ← h', hBdrop]
        simp [List.append_assoc]
      · rw [hglen, hBlen]
      · intro hlt
        have hlt' : B.length < 2 ^ 32 := by rw [← hglen]; exact hlt
        have hxx : (to_bytes_le B.length 4 ++ List.drop 4 B).length = B.length := by
          simp only [List.length_append, List.length_drop, length_to_bytes_le]
          omega
        rw [← h', take4_to_bytes, leNat_to_bytes_le, hxx]
        rw [show (256 : Nat) ^ 4 = 2 ^ 32 by norm_num]
        exact Nat.mod_eq_of_lt hlt'
  · intro nm v1 v2 rest b h
    unfold encodeEntries at h
    obtain ⟨nb, hnb, h⟩ := except_bind_ok h
    obtain ⟨s1, hs1, h⟩ := except_bind_ok h
    obtain ⟨b1, hb1, h⟩ := except_bind_ok h
    obtain ⟨s2, hs2, h⟩ := except_bind_ok h
    obtain ⟨b2, hb2, h⟩ := except_bind_ok h
    obtain ⟨rb, hrb, h⟩ := except_bind_ok h
    injection h with h'
    exact ⟨nb, s1, s2, b1, b2, rb, hnb, hs1, hb1, hs2, hb2, hrb, h'.symm⟩

/-- Witness for C1 at a section holding only its `GUID` key. -/
theorem build_section_blob_layout_witness :
    build_section_blob
        [(strL "GUID", PyVal.str (strL "11111111-2222-3333-4444-555555555555"))] =
      .ok [32, 0, 0, 0, 11, 0, 0, 0, 1, 0, 0, 0, 17, 17, 17, 17, 34, 34, 51, 51,
        68, 68, 85, 85, 85, 85, 85, 85, 0, 0, 0, 0] ∧
    (∃ gv gs gb body,
      lookupKey guidKey
          [(strL "GUID", PyVal.str (strL "11111111-2222-3333-4444-555555555555"))] =
        some gv ∧
      asStr gv = .ok gs ∧
      guid_str_to_bytes gs = .ok gb ∧ gb.length = 16 ∧
      encodeEntries
          (([(strL "GUID",
            PyVal.str (strL "11111111-2222-3333-4444-555555555555"))] :
              Section).filter fun e => e.1 ≠ guidKey) = .ok body ∧
      ([32, 0, 0, 0, 11, 0, 0, 0, 1, 0, 0, 0, 17, 17, 17, 17, 34, 34, 51, 51,
        68, 68, 85, 85, 85, 85, 85, 85, 0, 0, 0, 0] : List Nat) =
        to_bytes_le ([32, 0, 0, 0, 11, 0, 0, 0, 1, 0, 0, 0, 17, 17, 17, 17, 34,
          34, 51, 51, 68, 68, 85, 85, 85, 85, 85, 85, 0, 0, 0, 0] :
            List Nat).length 4 ++
          to_bytes_le 11 4 ++ to_bytes_le 1 4 ++ gb ++
          to_bytes_le (([(strL "GUID",
            PyVal.str (strL "11111111-2222-3333-4444-555555555555"))] :
              Section).filter fun e => e.1 ≠ guidKey).length 4 ++ body ∧
      ([32, 0, 0, 0, 11, 0, 0, 0, 1, 0, 0, 0, 17, 17, 17, 17, 34, 34, 51, 51,
        68, 68, 85, 85, 85, 85, 85, 85, 0, 0, 0, 0] : List Nat).length =
        32 + body.length ∧
      (([32, 0, 0, 0, 11, 0, 0, 0, 1, 0, 0, 0, 17, 17, 17, 17, 34, 34, 51, 51,
        68, 68, 85, 85, 85, 85, 85, 85, 0, 0, 0, 0] : List Nat).length < 2 ^ 32 →
        leNat (([32, 0, 0, 0, 11, 0, 0, 0, 1, 0, 0, 0, 17, 17, 17, 17, 34, 34,
          51, 51, 68, 68, 85, 85, 85, 85, 85, 85, 0, 0, 0, 0] :
            List Nat).take 4) =
          ([32, 0, 0, 0, 11, 0, 0, 0, 1, 0, 0, 0, 17, 17, 17, 17, 34, 34, 51,
            51, 68, 68, 85, 85, 85, 85, 85, 85, 0, 0, 0, 0] :
              List Nat).length)) :=
  ⟨rfl, build_section_blob_layout.1 _ _ rfl⟩

/-! ### C6: section-builder errors and all-or-nothing output -/

theorem encodeEntries_mem_error {sec : List (List Char × PyVal)}
    (h : ∃ nm bad, (nm, bad) ∈ sec ∧ ∀ v1 v2 : PyVal, bad ≠ PyVal.list [v1, v2]) :
    ∃ e, encodeEntries sec = .error e := by
  induction sec with
  | nil =>
    obtain ⟨nm, bad, hmem, _⟩ := h
    cases hmem
  | cons hd tl ih =>
    obtain ⟨nm, bad, hmem, hbad⟩ := h
    obtain ⟨n0, e0⟩ := hd
    rcases List.mem_cons.mp hmem with heq | hmem'
    · obtain ⟨rfl, rfl⟩ : n0 = nm ∧ e0 = bad := by
        injection heq with h1 h2
        exact ⟨h1.symm, h2.symm⟩
      unfold encodeEntries
      split
      · next v1 v2 => exact absurd rfl (hbad v1 v2)
      · exact ⟨_, rfl⟩
    · unfold encodeEntries
      split
      · next v1 v2 =>
        cases hn : encode_name n0 with
        | error e => exact ⟨e, by simp [hn, Bind.bind, Except.bind]⟩
        | ok nb =>
          cases hs1 : asOptStr v1 with
          | error e => exact ⟨e, by simp [hn, hs1, Bind.bind, Except.bind]⟩
          | ok s1 =>
            cases hb1 : parse_value s1 with
            | error e => exact ⟨e, by simp [hn, hs1, hb1, Bind.bind, Except.bind]⟩
            | ok b1 =>
              cases hs2 : asOptStr v2 with
              | error e => exact ⟨e, by simp [hn, hs1, hb1, hs2, Bind.bind, Except.bind]⟩
              | ok s2 =>
                cases hb2 : parse_value s2 with
                | error e =>
                  exact ⟨e, by simp [hn, hs1, hb1, hs2, hb2, Bind.bind, Except.bind]⟩
                | ok b2 =>
                  obtain ⟨e, he⟩ := ih ⟨nm, bad, hmem', hbad⟩
                  exact ⟨e, by simp [hn, hs1, hb1, hs2, hb2, he, Bind.bind, Except.bind]⟩
      · exact ⟨_, rfl⟩

theorem encodeEntries_cons_ok_elim {n0 : List Char} {e0 : PyVal}
    {tl : List (List Char × PyVal)} {b : List Nat}
    (h : encodeEntries ((n0, e0) :: tl) = .ok b) :
    ∃ v1 v2 nb s1 b1 s2 b2 rb, e0 = PyVal.list [v1, v2] ∧
      encode_name n0 = .ok nb ∧ asOptStr v1 = .ok s1 ∧
      parse_value s1 = .ok b1 ∧ asOptStr v2 = .ok s2 ∧
      parse_value s2 = .ok b2 ∧ encodeEntries tl = .ok rb ∧
      b = nb ++ b1 ++ b2 ++ rb := by
  unfold encodeEntries at h
  split at h
  · next v1 v2 =>
    obtain ⟨nb, hnb, h⟩ := except_bind_ok h
    obtain ⟨s1, hs1, h⟩ := except_bind_ok h
    obtain ⟨b1, hb1, h⟩ := except_bind_ok h
    obtain ⟨s2, hs2, h⟩ := except_bind_ok h
    obtain ⟨b2, hb2, h⟩ := except_bind_ok h
    obtain ⟨rb, hrb, h⟩ := except_bind_ok h
    injection h with h'
    exact ⟨v1, v2, nb, s1, b1, s2, b2, rb, rfl, hnb, hs1, hb1, hs2, hb2, hrb,
      h'.symm⟩
  · cases h

theorem encodeEntries_cons_ok {n0 : List Char} {v1 v2 : PyVal}
    {tl : List (List Char × PyVal)} {nb b1 b2 : List Nat}
    {s1 s2 : Option (List Char)}
    (hnb : encode_name n0 = .ok nb) (hs1 : asOptStr v1 = .ok s1)
    (hb1 : parse_value s1 = .ok b1) (hs2 : asOptStr v2 = .ok s2)
    (hb2 : parse_value s2 = .ok b2) :
    encodeEntries ((n0, PyVal.list [v1, v2]) :: tl) =
      (encodeEntries tl).map fun rb => nb ++ b1 ++ b2 ++ rb := by
  cases he : encodeEntries tl with
  | error e =>
    simp [encodeEntries, hnb, hs1, hb1, hs2, hb2, he, Bind.bind, Except.bind,
      Except.map]
  | ok rb =>
    simp [encodeEntries, hnb, hs1, hb1, hs2, hb2, he, Bind.bind, Except.bind,
      Except.map]

/-- C6: a section mapping without the reserved `GUID` key fails with the
missing-GUID error; an entry whose value is not a 2-element list makes the
entry loop fail with the malformed-entry error naming that entry (once the
entries before it encode), and any entry shaped that way makes the loop
fail; every entry-loop failure propagates out of `build_section_blob`, every
blob failure propagates out of `build_section`, and `build_section` is
all-or-nothing: it returns either the whole rendered fragment or a single
error and no partial output. -/
theorem build_section_errors :
    (∀ sec : Section, lookupKey guidKey sec = Option.none →
      build_section_blob sec = .error .missingSectionGUID) ∧
    (∀ (pre : List (List Char × PyVal)) (nm : List Char) (bad : PyVal)
        (rest : List (List Char × PyVal)) (b : List Nat),
      encodeEntries pre = .ok b →
      (∀ v1 v2 : PyVal, bad ≠ PyVal.list [v1, v2]) →
      encodeEntries (pre ++ (nm, bad) :: rest) = .error (.malformedEntry nm)) ∧
    (∀ sec : List (List Char × PyVal),
      (∃ nm bad, (nm, bad) ∈ sec ∧ ∀ v1 v2 : PyVal, bad ≠ PyVal.list [v1, v2]) →
      ∃ e, encodeEntries sec = .error e) ∧
    (∀ (sec : Section) (gv : PyVal) (gs : List Char) (gb : List Nat) (e : Err),
      lookupKey guidKey sec = some gv → asStr gv = .ok gs →
      guid_str_to_bytes gs = .ok gb →
      encodeEntries (sec.filter fun x => x.1 ≠ guidKey) = .error e →
      build_section_blob sec = .error e) ∧
    (∀ (tg nm : List Char) (sec : Section) (e : Err),
      build_section_blob sec = .error e → build_section tg nm sec = .error e) ∧
    (∀ (tg nm : List Char) (sec : Section),
      (∃ s, build_section tg nm sec = .ok s) ∨
        (∃ e, build_section tg nm sec = .error e)) := by
  refine ⟨?_, ?_, ?_, ?_, ?_, ?_⟩
  · intro sec hl
    unfold build_section_blob
    split
    · rfl
    · next gv hl' => rw [hl] at hl'; cases hl'
  · intro pre nm bad rest b hpre hbad
    induction pre generalizing b with
    | nil =>
      simp only [List.nil_append]
      unfold encodeEntries
      split
      · next v1 v2 => exact absurd rfl (hbad v1 v2)
      · rfl
    | cons hd tl ih =>
      obtain ⟨n0, e0⟩ := hd
      obtain ⟨v1, v2, nb, s1, b1, s2, b2, rb, rfl, hnb, hs1, hb1, hs2, hb2,
        hrb, _⟩ := encodeEntries_cons_ok_elim hpre
      simp only [List.cons_append]
      rw [encodeEntries_cons_ok hnb hs1 hb1 hs2 hb2, ih rb hrb]
      rfl
  · intro sec h
    exact encodeEntries_mem_error h
  · intro sec gv gs gb e hl hgs hgb he
    unfold build_section_blob
    split
    · next hl' => rw [hl] at hl'; cases hl'
    · next gv' hl' =>
      rw [hl] at hl'
      injection hl' with hgv
      subst hgv
      simp only [ne_eq, decide_not] at he
      simp [hgs, hgb, he, Bind.bind, Except.bind]
  · intro tg nm sec e h
    unfold build_section
    simp [h, Bind.bind, Except.bind]
  · intro tg nm sec
    cases h : build_section tg nm sec with
    | ok s => exact Or.inl ⟨s, rfl⟩
    | error e => exact Or.inr ⟨e, rfl⟩

/-- Witness for C6 at the empty section mapping. -/
theorem build_section_errors_witness :
    lookupKey guidKey ([] : Section) = Option.none ∧
      build_section_blob ([] : Section) = .error .missingSectionGUID :=
  ⟨rfl, build_section_errors.1 [] rfl⟩

/-! ### C9: the rendered text fragment -/

/-- Digits the rendered hex line may contain: `0-9` and lowercase `a-f`. -/
def isLowerHexDigit (c : Char) : Bool :=
  (48 ≤ c.toNat && c.toNat ≤ 57) || (97 ≤ c.toNat && c.toNat ≤ 102)

theorem dropWhile_length_le (p : Char → Bool) (l : List Char) :
    (l.dropWhile p).length ≤ l.length := by
  induction l with
  | nil => simp
  | cons a t ih =>
    by_cases h : p a
    · simp only [List.dropWhile_cons, h, if_true, List.length_cons]
      omega
    · simp [List.dropWhile_cons, h]

theorem stripWith_length_le (p : Char → Bool) (l : List Char) :
    (stripWith p l).length ≤ l.length := by
  unfold stripWith
  calc ((l.dropWhile p).reverse.dropWhile p).reverse.length
      = ((l.dropWhile p).reverse.dropWhile p).length := List.length_reverse _
    _ ≤ (l.dropWhile p).reverse.length := dropWhile_length_le p _
    _ = (l.dropWhile p).length := List.length_reverse _
    _ ≤ l.length := dropWhile_length_le p l

theorem pySignSplit_cases (t : List Char) :
    ((pySignSplit t).1 = 1 ∨ (pySignSplit t).1 = -1) ∧
      (pySignSplit t).2.length ≤ t.length := by
  unfold pySignSplit
  split <;> simp

theorem hexVal?_le {c : Char} {d : Nat} (h : hexVal? c = some d) : d ≤ 15 := by
  have := hexValD_le c
  rw [h] at this
  simpa using this

theorem hexCoreTail_cons_ne {acc : Nat} {c : Char} {rest : List Char}
    (hc : c ≠ '_') :
    hexCoreTail acc (c :: rest) =
      (hexVal? c).bind fun d => hexCoreTail (16 * acc + d) rest := by
  rw [hexCoreTail.eq_def]
  simp only [if_neg hc]

theorem hexCoreTail_lt {acc n : Nat} {l : List Char}
    (h : hexCoreTail acc l = some n) : n < 16 ^ l.length * (acc + 1) := by
  induction acc, l using hexCoreTail.induct generalizing n with
  | case1 acc =>
    have h' : some acc = some n := h
    injection h' with h'
    subst h'
    simp
  | case2 acc =>
    have h' : (Option.none : Option Nat) = some n := h
    cases h'
  | case3 acc c rest ih =>
    replace h : (hexVal? c).bind
        (fun d => hexCoreTail (16 * acc + d) rest) = some n := h
    cases hv : hexVal? c with
    | none => rw [hv] at h; cases h
    | some d =>
      rw [hv, Option.some_bind] at h
      have hd : d ≤ 15 := hexVal?_le hv
      have hb := ih d h
      have hp : 0 < 16 ^ rest.length := pow_pos (by norm_num) _
      simp only [List.length_cons]
      calc n < 16 ^ rest.length * (16 * acc + d + 1) := hb
        _ ≤ 16 ^ rest.length * (16 * (acc + 1)) := by nlinarith
        _ ≤ 16 ^ (rest.length + 1 + 1) * (acc + 1) := by
            rw [pow_succ, pow_succ]
            nlinarith
  | case4 acc c rest hc ih =>
    rw [hexCoreTail_cons_ne hc] at h
    cases hv : hexVal? c with
    | none => rw [hv] at h; cases h
    | some d =>
      rw [hv, Option.some_bind] at h
      have hd : d ≤ 15 := hexVal?_le hv
      have hb := ih d h
      have hp : 0 < 16 ^ rest.length := pow_pos (by norm_num) _
      simp only [List.length_cons]
      calc n < 16 ^ rest.length * (16 * acc + d + 1) := hb
        _ ≤ 16 ^ rest.length * (16 * (acc + 1)) := by nlinarith
        _ ≤ 16 ^ (rest.length + 1) * (acc + 1) := by
            rw [pow_succ]
            nlinarith
theorem hexCore_lt {u : List Char} {n : Nat} (h : hexCore u = some n) :
    n < 16 ^ u.length := by
  cases u with
  | nil => cases h
  | cons c rest =>
    replace h : (hexVal? c).bind (fun d => hexCoreTail d rest) = some n := h
    cases hv : hexVal? c with
    | none => rw [hv] at h; cases h
    | some d =>
      rw [hv, Option.some_bind] at h
      have hd : d ≤ 15 := hexVal?_le hv
      have hb := hexCoreTail_lt h
      have hp : 0 < 16 ^ rest.length := pow_pos (by norm_num) _
      simp only [List.length_cons]
      calc n < 16 ^ rest.length * (d + 1) := hb
        _ ≤ 16 ^ rest.length * 16 := by nlinarith
        _ = 16 ^ (rest.length + 1) := by rw [pow_succ]

theorem pyHexBody_short {u : List Char} {n : Nat} (hu : u.length ≤ 2)
    (h : pyHexBody u = some n) : n < 256 := by
  unfold pyHexBody at h
  split at h
  · next r =>
    simp only [List.length_cons] at hu
    obtain rfl : r = [] := List.length_eq_zero.mp (by omega)
    cases h
  · next r =>
    simp only [List.length_cons] at hu
    obtain rfl : r = [] := List.length_eq_zero.mp (by omega)
    cases h
  · have := hexCore_lt h
    calc n < 16 ^ u.length := this
      _ ≤ 16 ^ 2 := Nat.pow_le_pow_right (by norm_num) hu
      _ = 256 := by norm_num

theorem pyIntHex_toNat_lt {s : List Char} {i : Int} (hs : s.length ≤ 2)
    (h : pyIntHex s = some i) : i.toNat < 256 := by
  have hlen : (pySignSplit (stripWith isPyWs s)).2.length ≤ 2 :=
    le_trans (pySignSplit_cases _).2 (le_trans (stripWith_length_le _ _) hs)
  have hsign := (pySignSplit_cases (stripWith isPyWs s)).1
  replace h : (pyHexBody (pySignSplit (stripWith isPyWs s)).2).map
      (fun m => (pySignSplit (stripWith isPyWs s)).1 * (m : Int)) = some i := h
  cases hb : pyHexBody (pySignSplit (stripWith isPyWs s)).2 with
  | none => rw [hb] at h; cases h
  | some m =>
    rw [hb] at h
    replace h : some ((pySignSplit (stripWith isPyWs s)).1 * (m : Int)) = some i := h
    injection h with h'
    have hm : m < 256 := pyHexBody_short hlen hb
    rcases hsign with h1 | h1 <;> rw [h1] at h' <;> subst h' <;> simp <;> omega

theorem encode_name_bytes_lt {name : List Char} {r : List Nat}
    (h : encode_name name = .ok r) : ∀ b ∈ r, b < 256 := by
  unfold encode_name at h
  split at h
  · next hall =>
    injection h with h'
    subst h'
    intro b hb
    rcases List.mem_append.mp hb with hb | hb
    · exact to_bytes_le_lt _ _ b hb
    · obtain ⟨c, hc, rfl⟩ := List.mem_map.mp hb
      have := List.all_eq_true.mp hall c hc
      simp only [decide_eq_true_eq] at this
      omega
  · cases h

theorem fromHexPairs_lt (l : List Char) : ∀ b ∈ fromHexPairs l, b < 256 := by
  induction l using fromHexPairs.induct with
  | case1 a b rest ih =>
    intro x hx
    rcases List.mem_cons.mp hx with rfl | hx
    · have ha := hexValD_le a
      have hb := hexValD_le b
      omega
    · exact ih x hx
  | case2 l h =>
    cases l with
    | nil => simp [fromHexPairs]
    | cons a t =>
      cases t with
      | nil => simp [fromHexPairs]
      | cons b r => exact absurd rfl (h a b r)

theorem guid_str_to_bytes_lt {g : List Char} {gb : List Nat}
    (h : guid_str_to_bytes g = .ok gb) : ∀ b ∈ gb, b < 256 := by
  unfold guid_str_to_bytes at h
  cases hp : guid_parts g with
  | error e => rw [hp] at h; cases h
  | ok p =>
    rw [hp] at h
    injection h with h'
    subst h'
    intro b hb
    simp only [List.mem_append] at hb
    rcases hb with ((((hb | hb) | hb) | hb) | hb)
    · exact to_bytes_le_lt _ _ b hb
    · exact to_bytes_le_lt _ _ b hb
    · exact to_bytes_le_lt _ _ b hb
    · exact fromHexPairs_lt _ b hb
    · exact fromHexPairs_lt _ b hb

theorem parse_color_payload_bytes_lt {w : List Char} {r : List Nat}
    (h : parse_color_payload w = .ok r) : ∀ b ∈ r, b < 256 := by
  unfold parse_color_payload at h
  split at h
  · next hlen =>
    split at h
    · next ri gi bi ai hr hg hb2 ha =>
      split at h
      · injection h with h'
        subst h'
        intro b hb
        simp only [List.mem_cons, List.not_mem_nil, or_false] at hb
        rcases hb with rfl | rfl | rfl | rfl | rfl
        · omega
        · have := pyIntHex_toNat_lt (s := w.take 2) (by simp [List.length_take]) hr
          omega
        · have := pyIntHex_toNat_lt (s := (w.drop 2).take 2)
            (by simp [List.length_take]) hg
          omega
        · have := pyIntHex_toNat_lt (s := (w.drop 4).take 2)
            (by simp [List.length_take]) hb2
          omega
        · split at ha
          · injection ha with ha'
            subst ha'
            omega
          · next h6 =>
            have hlen8 : w.length = 8 := by
              rcases hlen with h | h
              · exact absurd h h6
              · exact h
            have := pyIntHex_toNat_lt (s := w.drop 6)
              (by simp [List.length_drop, hlen8]) ha
            omega
      · cases h
    · cases h
  · cases h

theorem parse_color_bytes_lt {v : List Char} {r : List Nat}
    (h : parse_color v = .ok r) : ∀ b ∈ r, b < 256 := by
  unfold parse_color at h
  exact parse_color_payload_bytes_lt h

theorem parse_value_bytes_lt {v : Option (List Char)} {r : List Nat}
    (h : parse_value v = .ok r) : ∀ b ∈ r, b < 256 := by
  cases v with
  | none =>
    replace h : Except.ok ([0] : List Nat) = Except.ok r := h
    injection h with h'
    subst h'
    intro b hb
    simp only [List.mem_cons, List.not_mem_nil, or_false] at hb
    subst hb
    norm_num
  | some s =>
    by_cases hm : isFlagMask (stripWith isPyWs s) = true
    · replace h : (if hexNat ((stripWith isPyWs s).take 2) = 0 ∨
          hexNat ((stripWith isPyWs s).take 2) = 1 then
          Except.error (Err.reservedFlag (stripWith isPyWs s))
        else Except.ok (to_bytes_le (hexNat ((stripWith isPyWs s).take 2)) 1 ++
          to_bytes_le (hexNat ((stripWith isPyWs s).drop 3)) 4)) = Except.ok r := by
        rw [← h]
        simp [parse_value, hm]
      split at h
      · cases h
      · injection h with h'
        subst h'
        intro b hb
        rcases List.mem_append.mp hb with hb | hb
        · exact to_bytes_le_lt _ _ b hb
        · exact to_bytes_le_lt _ _ b hb
    · replace hm : isFlagMask (stripWith isPyWs s) = false := by simpa using hm
      rw [parse_value_not_flagmask hm] at h
      exact parse_color_bytes_lt h

theorem encodeEntries_bytes_lt {sec : List (List Char × PyVal)} {r : List Nat}
    (h : encodeEntries sec = .ok r) : ∀ b ∈ r, b < 256 := by
  induction sec generalizing r with
  | nil =>
    replace h : Except.ok ([] : List Nat) = Except.ok r := h
    injection h with h'
    subst h'
    simp
  | cons hd tl ih =>
    obtain ⟨n0, e0⟩ := hd
    obtain ⟨v1, v2, nb, s1, b1, s2, b2, rb, rfl, hnb, hs1, hb1, hs2, hb2, hrb,
      rfl⟩ := encodeEntries_cons_ok_elim h
    intro b hb
    simp only [List.append_assoc, List.mem_append] at hb
    rcases hb with hb | hb | hb | hb
    · exact encode_name_bytes_lt hnb b hb
    · exact parse_value_bytes_lt hb1 b hb
    · exact parse_value_bytes_lt hb2 b hb
    · exact ih hrb b hb

theorem build_section_blob_bytes_lt {sec : Section} {blob : List Nat}
    (h : build_section_blob sec = .ok blob) : ∀ b ∈ blob, b < 256 := by
  unfold build_section_blob at h
  split at h
  · cases h
  · next gv hl =>
    obtain ⟨gs, hgs, h⟩ := except_bind_ok h
    obtain ⟨gb, hgb, h⟩ := except_bind_ok h
    obtain ⟨body, hbody, h⟩ := except_bind_ok h
    injection h with h'
    subst h'
    intro b hb
    rcases List.mem_append.mp hb with hb | hb
    · exact to_bytes_le_lt _ _ b hb
    · have hb' := List.mem_of_mem_drop hb
      simp only [List.mem_append] at hb'
      rcases hb' with (((((hb' | hb') | hb') | hb') | hb') | hb')
      · exact to_bytes_le_lt _ _ b hb'
      · exact to_bytes_le_lt _ _ b hb'
      · exact to_bytes_le_lt _ _ b hb'
      · exact guid_str_to_bytes_lt hgb b hb'
      · exact to_bytes_le_lt _ _ b hb'
      · exact encodeEntries_bytes_lt hbody b hb'

theorem hex2_length (b : Nat) : (hex2 b).length = 2 := rfl

theorem isLowerHexDigit_hexChar {n : Nat} (h : n < 16) :
    isLowerHexDigit (hexChar n) = true := by
  unfold hexChar
  split
  · next h10 =>
    have ht : (Char.ofNat (48 + n)).toNat = 48 + n := toNat_charOfNat (by omega)
    simp only [isLowerHexDigit, ht]
    simp only [Bool.or_eq_true, Bool.and_eq_true, decide_eq_true_eq]
    omega
  · next h10 =>
    have ht : (Char.ofNat (87 + n)).toNat = 87 + n := toNat_charOfNat (by omega)
    simp only [isLowerHexDigit, ht]
    simp only [Bool.or_eq_true, Bool.and_eq_true, decide_eq_true_eq]
    omega

theorem hex2_lower {b : Nat} (hb : b < 256) :
    ∀ c ∈ hex2 b, isLowerHexDigit c = true := by
  intro c hc
  simp only [hex2, List.mem_cons, List.not_mem_nil, or_false] at hc
  rcases hc with rfl | rfl
  · exact isLowerHexDigit_hexChar (by omega)
  · exact isLowerHexDigit_hexChar (Nat.mod_lt _ (by norm_num))

theorem mem_intercalate {sep : List Char} {xs : List (List Char)} {c : Char}
    (h : c ∈ List.intercalate sep xs) : c ∈ sep ∨ ∃ x ∈ xs, c ∈ x := by
  induction xs with
  | nil => simp [List.intercalate, List.intersperse] at h
  | cons x tl ih =>
    cases tl with
    | nil =>
      simp only [List.intercalate, List.intersperse] at h
      simp at h
      exact Or.inr ⟨x, by simp, h⟩
    | cons y t =>
      have hsplit : List.intercalate sep (x :: y :: t) =
          x ++ sep ++ List.intercalate sep (y :: t) := by
        simp [List.intercalate, List.intersperse, List.append_assoc]
      rw [hsplit] at h
      simp only [List.append_assoc, List.mem_append] at h
      rcases h with h | h | h
      · exact Or.inr ⟨x, by simp, h⟩
      · exact Or.inl h
      · rcases ih h with h' | ⟨z, hz, hc⟩
        · exact Or.inl h'
        · exact Or.inr ⟨z, by simp [List.mem_cons.mp hz], hc⟩

/-- C9: a successfully built section renders as the exact two-line
fragment: a bracketed registry-path header embedding the theme GUID in
braces and the section name, then a `"Data"=hex:` line whose blob bytes
appear as exactly two lowercase hex digits each, comma-separated with no
spaces, no uppercase and no line breaks inside the hex list. -/
theorem build_section_text_spec :
    ∀ (tg nm : List Char) (sec : Section) (s : List Char),
      build_section tg nm sec = .ok s →
      ∃ blob, build_section_blob sec = .ok blob ∧
        s = strL "\n[$RootKey$\\Themes\\\x7b" ++ tg ++ strL "\x7d\\" ++ nm ++
          strL "]\n\"Data\"=hex:" ++
          List.intercalate (strL ",") (blob.map hex2) ∧
        (∀ b ∈ blob, b < 256) ∧
        (∀ b ∈ blob, (hex2 b).length = 2 ∧
          ∀ c ∈ hex2 b, isLowerHexDigit c = true) ∧
        (∀ c ∈ List.intercalate (strL ",") (blob.map hex2),
          c = ',' ∨ isLowerHexDigit c = true) := by
  intro tg nm sec s h
  unfold build_section at h
  obtain ⟨blob, hblob, h⟩ := except_bind_ok h
  injection h with h'
  have hlt := build_section_blob_bytes_lt hblob
  refine ⟨blob, hblob, h'.symm, hlt, ?_, ?_⟩
  · exact fun b hb => ⟨hex2_length b, hex2_lower (hlt b hb)⟩
  · intro c hc
    rcases mem_intercalate hc with hc' | ⟨x, hx, hcx⟩
    · left
      simpa [strL] using hc'
    · obtain ⟨b, hb, rfl⟩ := List.mem_map.mp hx
      exact Or.inr (hex2_lower (hlt b hb) c hcx)

set_option maxRecDepth 8192 in
/-- Witness for C9 at a section holding only its `GUID` key. -/
theorem build_section_text_spec_witness :
    ∃ blob,
      build_section_blob
          [(strL "GUID",
            PyVal.str (strL "11111111-2222-3333-4444-555555555555"))] =
        .ok blob ∧
      strL "\n[$RootKey$\\Themes\\\x7baaaabbbb-cccc-dddd-eeee-ffff00001111\x7d\\Sec]\n\"Data\"=hex:20,00,00,00,0b,00,00,00,01,00,00,00,11,11,11,11,22,22,33,33,44,44,55,55,55,55,55,55,00,00,00,00" =
        strL "\n[$RootKey$\\Themes\\\x7b" ++
          strL "aaaabbbb-cccc-dddd-eeee-ffff00001111" ++ strL "\x7d\\" ++
          strL "Sec" ++ strL "]\n\"Data\"=hex:" ++
          List.intercalate (strL ",") (blob.map hex2) ∧
      (∀ b ∈ blob, b < 256) ∧
      (∀ b ∈ blob, (hex2 b).length = 2 ∧
        ∀ c ∈ hex2 b, isLowerHexDigit c = true) ∧
      (∀ c ∈ List.intercalate (strL ",") (blob.map hex2),
        c = ',' ∨ isLowerHexDigit c = true) :=
  build_section_text_spec (strL "aaaabbbb-cccc-dddd-eeee-ffff00001111")
    (strL "Sec")
    [(strL "GUID", PyVal.str (strL "11111111-2222-3333-4444-555555555555"))]
    (strL "\n[$RootKey$\\Themes\\\x7baaaabbbb-cccc-dddd-eeee-ffff00001111\x7d\\Sec]\n\"Data\"=hex:20,00,00,00,0b,00,00,00,01,00,00,00,11,11,11,11,22,22,33,33,44,44,55,55,55,55,55,55,00,00,00,00")
    rfl

/-! ### C8: brace and case invariance of GUID encoding -/

/-- Two characters equal up to ASCII letter case. -/
def caseEq (c d : Char) : Bool :=
  c = d ||
    (65 ≤ c.toNat && c.toNat ≤ 90 && d.toNat = c.toNat + 32) ||
    (65 ≤ d.toNat && d.toNat ≤ 90 && c.toNat = d.toNat + 32)

theorem caseEq_elim {c d : Char} (h : caseEq c d = true) :
    c = d ∨ (65 ≤ c.toNat ∧ c.toNat ≤ 90 ∧ d.toNat = c.toNat + 32) ∨
      (65 ≤ d.toNat ∧ d.toNat ≤ 90 ∧ c.toNat = d.toNat + 32) := by
  simp only [caseEq, Bool.or_eq_true, Bool.and_eq_true, decide_eq_true_eq] at h
  tauto

theorem caseEq_hexVal {c d : Char} (h : caseEq c d = true) :
    hexVal? c = hexVal? d := by
  rcases caseEq_elim h with rfl | ⟨h1, h2, h3⟩ | ⟨h1, h2, h3⟩
  · rfl
  · simp only [hexVal?]
    split_ifs <;> simp_all <;> omega
  · simp only [hexVal?]
    split_ifs <;> simp_all <;> omega

theorem caseEq_isHex {c d : Char} (h : caseEq c d = true) :
    isHex c = isHex d := by
  simp [isHex, caseEq_hexVal h]

theorem caseEq_dash {c d : Char} (h : caseEq c d = true) (hd : d = '-') :
    c = '-' := by
  subst hd
  rcases caseEq_elim h with rfl | ⟨h1, h2, h3⟩ | ⟨h1, h2, h3⟩
  · rfl
  · exfalso
    have h45 : ('-').toNat = 45 := rfl
    omega
  · exfalso
    have h45 : ('-').toNat = 45 := rfl
    omega

theorem forall2_append_decomp {R : Char → Char → Prop} {u a b : List Char}
    (h : List.Forall₂ R u (a ++ b)) :
    ∃ ua ub, u = ua ++ ub ∧ List.Forall₂ R ua a ∧ List.Forall₂ R ub b := by
  induction a generalizing u with
  | nil => exact ⟨[], u, rfl, List.Forall₂.nil, h⟩
  | cons x a ih =>
    rw [List.cons_append] at h
    cases h with
    | cons hx htail =>
      obtain ⟨ua, ub, rfl, hua, hub⟩ := ih htail
      exact ⟨_ :: ua, ub, rfl, List.Forall₂.cons hx hua, hub⟩

theorem forall2_caseEq_hexNat {u t : List Char}
    (h : List.Forall₂ (fun c d => caseEq c d = true) u t) :
    hexNat u = hexNat t := by
  suffices hgen : ∀ acc : Nat,
      u.foldl (fun a c => 16 * a + (hexVal? c).getD 0) acc =
        t.foldl (fun a c => 16 * a + (hexVal? c).getD 0) acc by
    exact hgen 0
  induction h with
  | nil => intro acc; rfl
  | cons hx htail ih =>
    intro acc
    simp only [List.foldl_cons, caseEq_hexVal hx]
    exact ih _

theorem forall2_caseEq_fromHexPairs {u t : List Char}
    (h : List.Forall₂ (fun c d => caseEq c d = true) u t) :
    fromHexPairs u = fromHexPairs t := by
  induction t using fromHexPairs.induct generalizing u with
  | case1 a b rest ih =>
    cases h with
    | cons hx htail =>
      cases htail with
      | cons hy htail2 =>
        simp only [fromHexPairs, caseEq_hexVal hx, caseEq_hexVal hy]
        rw [ih htail2]
  | case2 t ht =>
    cases t with
    | nil =>
      cases h
      rfl
    | cons a rest =>
      cases rest with
      | nil =>
        cases h with
        | cons hx htail =>
          cases htail
          rfl
      | cons b r => exact absurd rfl (ht a b r)

theorem forall2_caseEq_all_isHex {u t : List Char}
    (h : List.Forall₂ (fun c d => caseEq c d = true) u t)
    (ht : ∀ d ∈ t, isHex d = true) : ∀ c ∈ u, isHex c = true := by
  induction h with
  | nil => simp
  | cons hx htail ih =>
    intro c hc
    rcases List.mem_cons.mp hc with rfl | hc
    · rw [caseEq_isHex hx]
      exact ht _ (by simp)
    · exact ih (fun d hd => ht d (by simp [hd])) c hc

theorem forall2_caseEq_hexGroup {n : Nat} {u t : List Char}
    (h : List.Forall₂ (fun c d => caseEq c d = true) u t)
    (ht : isHexGroup n t = true) : isHexGroup n u = true := by
  simp only [isHexGroup, Bool.and_eq_true, decide_eq_true_eq,
    List.all_eq_true] at ht ⊢
  exact ⟨by rw [h.length_eq]; exact ht.1,
    forall2_caseEq_all_isHex h ht.2⟩

theorem forall2_guidJoin_decomp {u p0 p1 p2 p3 p4 : List Char}
    (h : List.Forall₂ (fun c d => caseEq c d = true) u
      (guidJoin p0 p1 p2 p3 p4)) :
    ∃ u0 u1 u2 u3 u4, u = guidJoin u0 u1 u2 u3 u4 ∧
      List.Forall₂ (fun c d => caseEq c d = true) u0 p0 ∧
      List.Forall₂ (fun c d => caseEq c d = true) u1 p1 ∧
      List.Forall₂ (fun c d => caseEq c d = true) u2 p2 ∧
      List.Forall₂ (fun c d => caseEq c d = true) u3 p3 ∧
      List.Forall₂ (fun c d => caseEq c d = true) u4 p4 := by
  unfold guidJoin at h
  obtain ⟨u0, r0, rfl, f0, hr0⟩ := forall2_append_decomp h
  clear h
  cases hr0 with
  | cons hd0 hr0tail =>
  obtain rfl := caseEq_dash hd0 rfl
  obtain ⟨u1, r1, rfl, f1, hr1⟩ := forall2_append_decomp hr0tail
  clear hr0tail
  cases hr1 with
  | cons hd1 hr1tail =>
  obtain rfl := caseEq_dash hd1 rfl
  obtain ⟨u2, r2, rfl, f2, hr2⟩ := forall2_append_decomp hr1tail
  clear hr1tail
  cases hr2 with
  | cons hd2 hr2tail =>
  obtain rfl := caseEq_dash hd2 rfl
  obtain ⟨u3, r3, rfl, f3, hr3⟩ := forall2_append_decomp hr2tail
  clear hr2tail
  cases hr3 with
  | cons hd3 hr3tail =>
  obtain rfl := caseEq_dash hd3 rfl
  exact ⟨u0, u1, u2, u3, _, rfl, f0, f1, f2, f3, hr3tail⟩

theorem mem_guidJoin_not_ws_brace {p0 p1 p2 p3 p4 : List Char}
    (h0 : isHexGroup 8 p0 = true) (h1 : isHexGroup 4 p1 = true)
    (h2 : isHexGroup 4 p2 = true) (h3 : isHexGroup 4 p3 = true)
    (h4 : isHexGroup 12 p4 = true) :
    ∀ c ∈ guidJoin p0 p1 p2 p3 p4, isPyWs c = false ∧ isBrace c = false := by
  intro c hc
  rcases mem_guidJoin hc with rfl | h | h | h | h | h
  · exact ⟨by decide, by decide⟩
  · exact ⟨(isHex_not_special (all_isHex_of_isHexGroup h0 c h)).1,
      (isHex_not_special (all_isHex_of_isHexGroup h0 c h)).2.1⟩
  · exact ⟨(isHex_not_special (all_isHex_of_isHexGroup h1 c h)).1,
      (isHex_not_special (all_isHex_of_isHexGroup h1 c h)).2.1⟩
  · exact ⟨(isHex_not_special (all_isHex_of_isHexGroup h2 c h)).1,
      (isHex_not_special (all_isHex_of_isHexGroup h2 c h)).2.1⟩
  · exact ⟨(isHex_not_special (all_isHex_of_isHexGroup h3 c h)).1,
      (isHex_not_special (all_isHex_of_isHexGroup h3 c h)).2.1⟩
  · exact ⟨(isHex_not_special (all_isHex_of_isHexGroup h4 c h)).1,
      (isHex_not_special (all_isHex_of_isHexGroup h4 c h)).2.1⟩

theorem pySplit_guidJoin {p0 p1 p2 p3 p4 : List Char}
    (h0 : isHexGroup 8 p0 = true) (h1 : isHexGroup 4 p1 = true)
    (h2 : isHexGroup 4 p2 = true) (h3 : isHexGroup 4 p3 = true)
    (h4 : isHexGroup 12 p4 = true) :
    pySplit '-' (guidJoin p0 p1 p2 p3 p4) = [p0, p1, p2, p3, p4] := by
  unfold guidJoin
  rw [pySplit_append (not_dash_of_all_isHex (all_isHex_of_isHexGroup h0)),
    pySplit_append (not_dash_of_all_isHex (all_isHex_of_isHexGroup h1)),
    pySplit_append (not_dash_of_all_isHex (all_isHex_of_isHexGroup h2)),
    pySplit_append (not_dash_of_all_isHex (all_isHex_of_isHexGroup h3)),
    pySplit_no_sep (not_dash_of_all_isHex (all_isHex_of_isHexGroup h4))]

theorem guidJoin_ne_nil {p0 p1 p2 p3 p4 : List Char}
    (h0 : isHexGroup 8 p0 = true) :
    guidJoin p0 p1 p2 p3 p4 ≠ [] := by
  intro h
  have := congrArg List.length h
  simp only [guidJoin, List.length_append, List.length_cons,
    List.length_nil] at this
  omega

theorem stripWith_braced {u : List Char} (hne : u ≠ [])
    (hnb : ∀ c ∈ u, isBrace c = false) :
    stripWith isBrace ('{' :: u ++ ['}']) = u := by
  unfold stripWith
  obtain ⟨c0, u', rfl⟩ := List.exists_cons_of_ne_nil hne
  have hb1 : isBrace '{' = true := by decide
  have hb2 : isBrace '}' = true := by decide
  have hstep1 : ('{' :: (c0 :: u') ++ ['}']).dropWhile isBrace =
      (c0 :: u') ++ ['}'] := by
    rw [List.cons_append, List.dropWhile_cons]
    simp only [hb1, if_true]
    rw [List.cons_append, List.dropWhile_cons]
    simp [hnb c0 (by simp)]
  rw [hstep1]
  have hstep2 : ((c0 :: u') ++ ['}']).reverse = '}' :: (c0 :: u').reverse := by
    simp
  rw [hstep2, List.dropWhile_cons]
  simp only [hb2, if_true]
  rw [dropWhile_eq_self_of_all (fun c hc => hnb c (List.mem_reverse.mp hc)),
    List.reverse_reverse]

theorem guid_parts_braced {p0 p1 p2 p3 p4 : List Char}
    (h0 : isHexGroup 8 p0 = true) (h1 : isHexGroup 4 p1 = true)
    (h2 : isHexGroup 4 p2 = true) (h3 : isHexGroup 4 p3 = true)
    (h4 : isHexGroup 12 p4 = true) :
    guid_parts ('{' :: guidJoin p0 p1 p2 p3 p4 ++ ['}']) =
      .ok ⟨p0, p1, p2, p3, p4⟩ := by
  have hmem := mem_guidJoin_not_ws_brace h0 h1 h2 h3 h4
  have hne := @guidJoin_ne_nil p0 p1 p2 p3 p4 h0
  unfold guid_parts
  have hws : stripWith isPyWs ('{' :: guidJoin p0 p1 p2 p3 p4 ++ ['}']) =
      '{' :: guidJoin p0 p1 p2 p3 p4 ++ ['}'] := by
    apply stripWith_eq_self_of_all
    intro c hc
    simp only [List.mem_cons, List.mem_append, List.not_mem_nil, or_false] at hc
    rcases hc with (rfl | hc) | rfl
    · decide
    · exact (hmem c hc).1
    · decide
  rw [hws, stripWith_braced hne (fun c hc => (hmem c hc).2),
    pySplit_guidJoin h0 h1 h2 h3 h4]
  simp [h0, h1, h2, h3, h4]

/-- C8: for a valid GUID written as its five hex groups (lengths 8, 4, 4,
4, 12), any character-wise case variant of the string encodes to the same
16 bytes after parsing, and wrapping either string in braces leaves the
encoding unchanged. -/
theorem guid_case_brace_invariance :
    ∀ p0 p1 p2 p3 p4 : List Char,
      isHexGroup 8 p0 = true → isHexGroup 4 p1 = true →
      isHexGroup 4 p2 = true → isHexGroup 4 p3 = true →
      isHexGroup 12 p4 = true →
      ∀ u : List Char,
        List.Forall₂ (fun c d => caseEq c d = true) u
          (guidJoin p0 p1 p2 p3 p4) →
        guid_str_to_bytes u = guid_str_to_bytes (guidJoin p0 p1 p2 p3 p4) ∧
        guid_str_to_bytes ('{' :: u ++ ['}']) =
          guid_str_to_bytes (guidJoin p0 p1 p2 p3 p4) := by
  intro p0 p1 p2 p3 p4 h0 h1 h2 h3 h4 u hu
  obtain ⟨u0, u1, u2, u3, u4, rfl, f0, f1, f2, f3, f4⟩ :=
    forall2_guidJoin_decomp hu
  have g0 := forall2_caseEq_hexGroup f0 h0
  have g1 := forall2_caseEq_hexGroup f1 h1
  have g2 := forall2_caseEq_hexGroup f2 h2
  have g3 := forall2_caseEq_hexGroup f3 h3
  have g4 := forall2_caseEq_hexGroup f4 h4
  have hb_eq : to_bytes_le (hexNat u0) 4 ++ to_bytes_le (hexNat u1) 2 ++
      to_bytes_le (hexNat u2) 2 ++ fromHexPairs u3 ++ fromHexPairs u4 =
      to_bytes_le (hexNat p0) 4 ++ to_bytes_le (hexNat p1) 2 ++
      to_bytes_le (hexNat p2) 2 ++ fromHexPairs p3 ++ fromHexPairs p4 := by
    rw [forall2_caseEq_hexNat f0, forall2_caseEq_hexNat f1,
      forall2_caseEq_hexNat f2, forall2_caseEq_fromHexPairs f3,
      forall2_caseEq_fromHexPairs f4]
  constructor
  · unfold guid_str_to_bytes
    rw [guid_parts_of_groups g0 g1 g2 g3 g4,
      guid_parts_of_groups h0 h1 h2 h3 h4]
    exact congrArg Except.ok hb_eq
  · unfold guid_str_to_bytes
    rw [guid_parts_braced g0 g1 g2 g3 g4,
      guid_parts_of_groups h0 h1 h2 h3 h4]
    exact congrArg Except.ok hb_eq

/-- Witness for C8: the uppercase variant of
`12ab5678-9abc-def0-1122-334455667788`, with and without braces. -/
theorem guid_case_brace_invariance_witness :
    isHexGroup 8 (strL "12ab5678") = true ∧
      guid_str_to_bytes (strL "12AB5678-9ABC-DEF0-1122-334455667788") =
        guid_str_to_bytes
          (guidJoin (strL "12ab5678") (strL "9abc") (strL "def0")
            (strL "1122") (strL "334455667788")) ∧
      guid_str_to_bytes
          ('{' :: strL "12AB5678-9ABC-DEF0-1122-334455667788" ++ ['}']) =
        guid_str_to_bytes
          (guidJoin (strL "12ab5678") (strL "9abc") (strL "def0")
            (strL "1122") (strL "334455667788")) :=
  ⟨by decide,
    guid_case_brace_invariance (strL "12ab5678") (strL "9abc") (strL "def0")
      (strL "1122") (strL "334455667788") (by decide) (by decide) (by decide)
      (by decide) (by decide)
      (strL "12AB5678-9ABC-DEF0-1122-334455667788") (by decide)⟩
